import Mathlib

/-!
Verification of the skar archive indexer core against its specification.

This file gives a shallow embedding of the two subsystems covered by the
specification: the multi-endpoint RPC client (`rpc-client/src/endpoint.rs`)
and the query engine (`skar/src/query/handler.rs`,
`skar/src/query/execution/mod.rs`, `skar/src/server.rs`), and proves or
refutes the frozen claims about them.

Machine integers (`u64`, `usize`) are modelled as `Nat`; wraparound is made
explicit (`% u64size`) at the one place the source can wrap on inputs a
claim quantifies over.  Fallible Rust code (`Result`, panicking `unwrap`)
is modelled with `Option`/`Except`: `none` / `.error` marks the aborted
computation.  Time (`Instant`) is a millisecond timestamp `Nat`.
-/

set_option synthInstance.maxSize 512

/-! ## Basic data -/

/-- Raw byte strings (addresses, topics, hashes): `&[u8]` / `Vec<u8>`. -/
abbrev Bytes := List Nat

/-- `2^64`, the modulus of `u64` arithmetic. -/
def u64size : Nat := 18446744073709551616

/-! ## rpc-client: request model (`rpc-client/src/endpoint.rs`)

The request enums live in `rpc-client/src/lib.rs` types referenced by
`endpoint.rs`; their variants and payloads are exactly the ones matched on
in `endpoint.rs` (`GetLogs { from_block, to_block }`, `GetBlockNumber`,
`GetBlockByNumber`, `GetTransactionReceipt`), per the spec's data model. -/

/-- `GetLogs { from_block, to_block }`: inclusive block range. -/
structure GetLogsReq where
  from_block : Nat
  to_block : Nat
deriving DecidableEq

/-- One JSON-RPC request (`RpcRequestImpl`). -/
inductive RpcRequestImpl where
  | GetBlockNumber
  | GetBlockByNumber (block_number : Nat)
  | GetTransactionReceipt (block_number : Nat) (tx_hash : Bytes)
  | GetLogs (g : GetLogsReq)
deriving DecidableEq

/-- A single request or an ordered batch (`RpcRequest`). -/
inductive RpcRequest where
  | Single (req : RpcRequestImpl)
  | Batch (reqs : List RpcRequestImpl)
deriving DecidableEq

/-- `LimitConfig`.  All four fields are `NonZeroUsize`/`NonZeroU64` in the
source; positivity is carried as a hypothesis where it matters. -/
structure LimitConfig where
  req_limit : Nat
  req_limit_window_ms : Nat
  get_logs_range_limit : Nat
  batch_size_limit : Nat
deriving DecidableEq

/-- Rate-limiter state of `Listen`: the sliding-window counter and the window
start (an `Instant`, modelled as a millisecond timestamp). -/
structure ListenState where
  window_num_reqs : Nat
  last_limit_refresh : Nat
deriving DecidableEq

/-- Outcome of `Listen::update_limit`. -/
inductive AdmitResult where
  | ok
  | limitExceeded
deriving DecidableEq

/-- `Endpoint::calculate_required_last_block_impl`. -/
def calculate_required_last_block_impl : RpcRequestImpl → Option Nat
  | .GetLogs g => some g.to_block
  | .GetBlockNumber => none
  | .GetBlockByNumber block_number => some block_number
  | .GetTransactionReceipt block_number _ => some block_number

/-- The fold inside `Endpoint::calculate_required_last_block` for the batch
variant, combining member tips with `max` (named so that lemmas can
generalise over the accumulator). -/
def required_tip_fold (acc : Option Nat) (reqs : List RpcRequestImpl) : Option Nat :=
  reqs.foldl (fun acc req =>
    match acc, calculate_required_last_block_impl req with
    | some a, some b => some (max a b)
    | none, v => v
    | v, none => v) acc

/-- `Endpoint::calculate_required_last_block`. -/
def calculate_required_last_block : RpcRequest → Option Nat
  | .Single req => calculate_required_last_block_impl req
  | .Batch reqs => required_tip_fold none reqs

/-- `Listen::calculate_needed_reqs_impl`.  The `u64` expression
`*to_block - *from_block + 1` wraps, so the range is computed modulo
`u64size`; `NonZeroUsize::new(num_reqs).unwrap()` panics when the quotient
is zero, modelled by `none`.  (The sum `range + range_limit - 1` can wrap
only when `range + range_limit` exceeds `2^64`; no claim reaches such
configurations and the wrap is not modelled there.) -/
def calculate_needed_reqs_impl (cfg : LimitConfig) : RpcRequestImpl → Option Nat
  | .GetLogs g =>
      let range_limit := cfg.get_logs_range_limit
      let range := ((g.to_block + u64size - g.from_block) % u64size + 1) % u64size
      let num_reqs := (range + range_limit - 1) / range_limit
      if num_reqs = 0 then none else some num_reqs
  | _ => some 1

/-- The closure `needed_reqs_for_batch` inside `calculate_needed_reqs`:
fold a chunk starting from 1, adding `member_cost - 1` per member.  A panic
inside a member's cost (`none`) aborts the whole computation. -/
def needed_reqs_for_batch (cfg : LimitConfig) (batch : List RpcRequestImpl) : Option Nat :=
  batch.foldl (fun acc req =>
    match acc, calculate_needed_reqs_impl cfg req with
    | some a, some c => some (a + c - 1)
    | _, _ => none) (some 1)

/-- Rust's `slice::chunks(n)`: consecutive chunks of `n` elements, the last
chunk possibly shorter.  `chunks(0)` panics in Rust and cannot occur here
(`batch_size_limit` is `NonZeroUsize`); this embedding returns `[]` then. -/
def chunksOf (n : Nat) (l : List α) : List (List α) :=
  if l.isEmpty then []
  else if n = 0 then []
  else l.take n :: chunksOf n (l.drop n)
termination_by l.length
decreasing_by
  rename_i h1 h2
  have h3 : l ≠ [] := fun he => by simp [he] at h1
  have h4 : 0 < l.length := List.length_pos.mpr h3
  simp only [List.length_drop]
  omega

/-- `Listen::calculate_needed_reqs`: chunk the batch by `batch_size_limit`,
cost each chunk, sum; `NonZeroUsize::new(needed_reqs).unwrap()` panics on a
zero sum (`none`). -/
def calculate_needed_reqs (cfg : LimitConfig) : RpcRequest → Option Nat
  | .Single req => calculate_needed_reqs_impl cfg req
  | .Batch reqs =>
      let total := (chunksOf cfg.batch_size_limit reqs).foldl (fun acc ch =>
        match acc, needed_reqs_for_batch cfg ch with
        | some a, some c => some (a + c)
        | _, _ => none) (some 0)
      match total with
      | none => none
      | some s => if s = 0 then none else some s

/-- `Listen::update_limit`: reset the window when it has elapsed, then admit
iff `count + cost < limit` (strict).  `now` is the current instant;
`none` propagates a panic inside the cost computation. -/
def update_limit (cfg : LimitConfig) (now : Nat) (st : ListenState) (req : RpcRequest) :
    Option (AdmitResult × ListenState) :=
  match calculate_needed_reqs cfg req with
  | none => none
  | some needed_reqs =>
      let st1 := if cfg.req_limit_window_ms ≤ now - st.last_limit_refresh
        then { window_num_reqs := 0, last_limit_refresh := now }
        else st
      if st1.window_num_reqs + needed_reqs < cfg.req_limit then
        some (.ok, { st1 with window_num_reqs := st1.window_num_reqs + needed_reqs })
      else
        some (.limitExceeded, st1)

/-! Spec-side cost function for the refinement claim C6, following the
spec's words (`§4.2 Cost of a request`). -/

/-- Ceiling division, written from the spec's `ceil((to - from + 1) / limit)`. -/
def ceil_div (a b : Nat) : Nat := if a % b = 0 then a / b else a / b + 1

/-- Spec-side cost of one member: 1, or `ceil(range / get_logs_range_limit)`
for `GetLogs`. -/
def spec_member_cost (cfg : LimitConfig) : RpcRequestImpl → Nat
  | .GetLogs g => ceil_div (g.to_block - g.from_block + 1) cfg.get_logs_range_limit
  | _ => 1

/-- Spec-side cost of a request: chunks of `batch_size_limit`, each costing
`1 + Σ (member_cost − 1)`, summed. -/
def spec_request_cost (cfg : LimitConfig) : RpcRequest → Nat
  | .Single req => spec_member_cost cfg req
  | .Batch reqs =>
      ((chunksOf cfg.batch_size_limit reqs).map
        (fun ch => 1 + (ch.map (fun req => spec_member_cost cfg req - 1)).sum)).sum

/-- Well-formedness of one request member: a `GetLogs` range is ordered and
fits in `u64` (the spec's `from ≤ to` invariant on inclusive ranges). -/
def wf_req_impl : RpcRequestImpl → Prop
  | .GetLogs g => g.from_block ≤ g.to_block ∧ g.to_block - g.from_block + 1 < u64size
  | _ => True

instance (req : RpcRequestImpl) : Decidable (wf_req_impl req) := by
  cases req <;> simp only [wf_req_impl] <;> infer_instance

/-- Well-formedness of a request. -/
def wf_req : RpcRequest → Prop
  | .Single req => wf_req_impl req
  | .Batch reqs => ∀ req ∈ reqs, wf_req_impl req

/-! Helper lemmas for the cost claims. -/

theorem getlogs_range_eq (g : GetLogsReq) (h1 : g.from_block ≤ g.to_block)
    (h2 : g.to_block - g.from_block + 1 < u64size) :
    ((g.to_block + u64size - g.from_block) % u64size + 1) % u64size =
      g.to_block - g.from_block + 1 := by
  simp only [u64size] at h2 ⊢
  omega

theorem ceil_div_eq_add_pred_div (a b : Nat) (hb : 0 < b) :
    (a + b - 1) / b = ceil_div a b := by
  rcases Nat.eq_zero_or_pos a with ha | ha
  · subst ha
    rw [Nat.zero_add, Nat.div_eq_of_lt (by omega)]
    simp [ceil_div]
  · obtain ⟨q, r, hr, hqr⟩ : ∃ q r, r < b ∧ a = b * q + r :=
      ⟨a / b, a % b, Nat.mod_lt _ hb, (Nat.div_add_mod a b).symm⟩
    have hmod : a % b = r := by
      rw [hqr, Nat.add_comm, Nat.add_mul_mod_self_left, Nat.mod_eq_of_lt hr]
    have hdiv : a / b = q := by
      rw [hqr, Nat.mul_add_div hb, Nat.div_eq_of_lt hr]
      omega
    unfold ceil_div
    rw [hmod, hdiv]
    rcases Nat.eq_zero_or_pos r with h0 | h0
    · rw [if_pos h0]
      have h1 : a + b - 1 = b * q + (b - 1) := by omega
      have h2 : (b - 1) / b = 0 := Nat.div_eq_of_lt (by omega)
      rw [h1, Nat.mul_add_div hb, h2]
      omega
    · rw [if_neg (by omega)]
      have hbq : b * (q + 1) = b * q + b := by ring
      have h1 : a + b - 1 = b * (q + 1) + (r - 1) := by omega
      have h2 : (r - 1) / b = 0 := Nat.div_eq_of_lt (by omega)
      rw [h1, Nat.mul_add_div hb, h2]

theorem one_le_ceil_div (a b : Nat) (ha : 0 < a) : 1 ≤ ceil_div a b := by
  unfold ceil_div
  split
  · rename_i h
    have hd := Nat.div_add_mod a b
    rw [h, Nat.add_zero] at hd
    rcases Nat.eq_zero_or_pos (a / b) with h0 | h0
    · rw [h0, Nat.mul_zero] at hd
      omega
    · omega
  · exact Nat.le_add_left 1 (a / b)

theorem impl_cost_eq (cfg : LimitConfig) (hL : 0 < cfg.get_logs_range_limit)
    (req : RpcRequestImpl) (hr : wf_req_impl req) :
    calculate_needed_reqs_impl cfg req = some (spec_member_cost cfg req) ∧
      1 ≤ spec_member_cost cfg req := by
  cases req with
  | GetLogs g =>
      obtain ⟨h1, h2⟩ := hr
      simp only [calculate_needed_reqs_impl, spec_member_cost]
      rw [getlogs_range_eq g h1 h2,
        ceil_div_eq_add_pred_div (g.to_block - g.from_block + 1) _ hL]
      have hge := one_le_ceil_div (g.to_block - g.from_block + 1) cfg.get_logs_range_limit
        (by omega)
      constructor
      · rw [if_neg (by omega)]
      · exact hge
  | GetBlockNumber => exact ⟨rfl, le_refl 1⟩
  | GetBlockByNumber n => exact ⟨rfl, le_refl 1⟩
  | GetTransactionReceipt n h => exact ⟨rfl, le_refl 1⟩

theorem chunk_cost_fold (cfg : LimitConfig) (hL : 0 < cfg.get_logs_range_limit)
    (ch : List RpcRequestImpl) (h : ∀ req ∈ ch, wf_req_impl req) :
    ∀ a : Nat,
      ch.foldl (fun acc req =>
        match acc, calculate_needed_reqs_impl cfg req with
        | some a, some c => some (a + c - 1)
        | _, _ => none) (some a) =
      some (a + (ch.map (fun req => spec_member_cost cfg req - 1)).sum) := by
  induction ch with
  | nil => intro a; simp
  | cons r ch ih =>
      intro a
      have hr := h r (List.mem_cons_self r ch)
      obtain ⟨heq, hge⟩ := impl_cost_eq cfg hL r hr
      simp only [List.foldl_cons, heq]
      rw [ih (fun req hreq => h req (List.mem_cons_of_mem r hreq))]
      congr 1
      simp only [List.map_cons, List.sum_cons]
      omega

theorem chunk_cost_eq (cfg : LimitConfig) (hL : 0 < cfg.get_logs_range_limit)
    (ch : List RpcRequestImpl) (h : ∀ req ∈ ch, wf_req_impl req) :
    needed_reqs_for_batch cfg ch =
      some (1 + (ch.map (fun req => spec_member_cost cfg req - 1)).sum) := by
  unfold needed_reqs_for_batch
  exact chunk_cost_fold cfg hL ch h 1

theorem chunksOf_sublist_mem (n : Nat) (l : List α) :
    ∀ ch ∈ chunksOf n l, ∀ x ∈ ch, x ∈ l := by
  induction l using chunksOf.induct n with
  | case1 l h1 =>
      intro ch hch
      rw [chunksOf, if_pos h1] at hch
      simp at hch
  | case2 l h1 h2 =>
      intro ch hch
      rw [chunksOf, if_neg h1, if_pos h2] at hch
      simp at hch
  | case3 l h1 h2 ih =>
      intro ch hch
      rw [chunksOf, if_neg h1, if_neg h2] at hch
      rcases List.mem_cons.mp hch with h | h
      · subst h; intro x hx; exact List.take_subset n l hx
      · intro x hx
        exact List.drop_subset n l (ih ch h x hx)

theorem chunksOf_ne_nil (n : Nat) (hn : 0 < n) (l : List α) (hl : l ≠ []) :
    chunksOf n l ≠ [] := by
  rw [chunksOf, if_neg (by simp [hl]), if_neg (by omega)]
  simp

theorem batch_total_fold (cfg : LimitConfig) (hL : 0 < cfg.get_logs_range_limit)
    (chs : List (List RpcRequestImpl)) (h : ∀ ch ∈ chs, ∀ req ∈ ch, wf_req_impl req) :
    ∀ a : Nat,
      chs.foldl (fun acc ch =>
        match acc, needed_reqs_for_batch cfg ch with
        | some a, some c => some (a + c)
        | _, _ => none) (some a) =
      some (a + (chs.map
        (fun ch => 1 + (ch.map (fun req => spec_member_cost cfg req - 1)).sum)).sum) := by
  induction chs with
  | nil => intro a; simp
  | cons ch chs ih =>
      intro a
      have hch := h ch (List.mem_cons_self ch chs)
      rw [List.foldl_cons, chunk_cost_eq cfg hL ch hch]
      simp only
      rw [ih (fun c hc => h c (List.mem_cons_of_mem ch hc))]
      simp only [List.map_cons, List.sum_cons]
      congr 1
      omega

theorem batch_calc_eq (cfg : LimitConfig) (hL : 0 < cfg.get_logs_range_limit)
    (reqs : List RpcRequestImpl) (h : ∀ req ∈ reqs, wf_req_impl req) :
    calculate_needed_reqs cfg (.Batch reqs) =
      (if spec_request_cost cfg (.Batch reqs) = 0 then none
       else some (spec_request_cost cfg (.Batch reqs))) := by
  simp only [calculate_needed_reqs]
  rw [batch_total_fold cfg hL (chunksOf cfg.batch_size_limit reqs)
    (fun ch hch req hreq => h req (chunksOf_sublist_mem _ _ ch hch req hreq)) 0]
  simp only [Nat.zero_add, spec_request_cost]

theorem spec_batch_cost_pos (cfg : LimitConfig) (hB : 0 < cfg.batch_size_limit)
    (reqs : List RpcRequestImpl) (hne : reqs ≠ []) :
    1 ≤ spec_request_cost cfg (.Batch reqs) := by
  show 1 ≤ ((chunksOf cfg.batch_size_limit reqs).map
    (fun ch => 1 + (ch.map (fun req => spec_member_cost cfg req - 1)).sum)).sum
  cases hc : chunksOf cfg.batch_size_limit reqs with
  | nil => exact absurd hc (chunksOf_ne_nil cfg.batch_size_limit hB reqs hne)
  | cons c rest =>
      simp only [List.map_cons, List.sum_cons]
      omega

theorem required_tip_fold_cons (acc : Option Nat) (req : RpcRequestImpl)
    (reqs : List RpcRequestImpl) :
    required_tip_fold acc (req :: reqs) =
      required_tip_fold
        (match acc, calculate_required_last_block_impl req with
         | some a, some b => some (max a b)
         | none, v => v
         | v, none => v) reqs := rfl

theorem required_tip_fold_eq_none (reqs : List RpcRequestImpl) :
    ∀ acc, required_tip_fold acc reqs = none ↔
      (acc = none ∧ ∀ req ∈ reqs, calculate_required_last_block_impl req = none) := by
  induction reqs with
  | nil => intro acc; simp [required_tip_fold]
  | cons r reqs ih =>
      intro acc
      rw [required_tip_fold_cons, ih]
      cases acc with
      | none =>
          cases h : calculate_required_last_block_impl r with
          | none => simp [h]
          | some b => simp [h]
      | some a =>
          cases h : calculate_required_last_block_impl r with
          | none => simp [h]
          | some b => simp [h]

theorem required_tip_fold_eq_some (reqs : List RpcRequestImpl) :
    ∀ acc m, required_tip_fold acc reqs = some m ↔
      ((acc = some m ∨ ∃ req ∈ reqs, calculate_required_last_block_impl req = some m) ∧
        (∀ a, acc = some a → a ≤ m) ∧
        (∀ req ∈ reqs, ∀ b, calculate_required_last_block_impl req = some b → b ≤ m)) := by
  induction reqs with
  | nil =>
      intro acc m
      cases acc with
      | none => simp [required_tip_fold]
      | some a =>
          simp only [required_tip_fold, List.foldl_nil, Option.some.injEq, List.not_mem_nil,
            false_and, exists_false, or_false, List.mem_nil_iff]
          constructor
          · rintro rfl
            exact ⟨rfl, fun a' ha' => by cases ha'; omega, by simp⟩
          · rintro ⟨rfl, h2, _⟩
            rfl
  | cons r reqs ih =>
      intro acc m
      rw [required_tip_fold_cons, ih]
      cases acc with
      | none =>
          cases h : calculate_required_last_block_impl r with
          | none =>
              simp only [h]
              constructor
              · rintro ⟨h1, h2, h3⟩
                refine ⟨?_, by simp, ?_⟩
                · rcases h1 with h1 | ⟨req, hreq, himpl⟩
                  · simp at h1
                  · exact Or.inr ⟨req, List.mem_cons_of_mem r hreq, himpl⟩
                · intro req hreq b hb
                  rcases List.mem_cons.mp hreq with rfl | hreq
                  · rw [h] at hb; cases hb
                  · exact h3 req hreq b hb
              · rintro ⟨h1, _, h3⟩
                refine ⟨?_, by simp, fun req hreq b hb => h3 req (List.mem_cons_of_mem r hreq) b hb⟩
                rcases h1 with h1 | ⟨req, hreq, himpl⟩
                · cases h1
                · rcases List.mem_cons.mp hreq with rfl | hreq
                  · rw [h] at himpl; cases himpl
                  · exact Or.inr ⟨req, hreq, himpl⟩
          | some b =>
              simp only [h]
              constructor
              · rintro ⟨h1, h2, h3⟩
                refine ⟨?_, by simp, ?_⟩
                · rcases h1 with h1 | ⟨req, hreq, himpl⟩
                  · injection h1 with h1
                    exact Or.inr ⟨r, List.mem_cons_self r reqs, by rw [h, h1]⟩
                  · exact Or.inr ⟨req, List.mem_cons_of_mem r hreq, himpl⟩
                · intro req hreq c hc
                  rcases List.mem_cons.mp hreq with rfl | hreq
                  · rw [h] at hc
                    injection hc with hc
                    subst hc
                    exact h2 b rfl
                  · exact h3 req hreq c hc
              · rintro ⟨h1, _, h3⟩
                have hbm : b ≤ m := h3 r (List.mem_cons_self r reqs) b h
                refine ⟨?_, ?_, fun req hreq c hc => h3 req (List.mem_cons_of_mem r hreq) c hc⟩
                · rcases h1 with h1 | ⟨req, hreq, himpl⟩
                  · cases h1
                  · rcases List.mem_cons.mp hreq with rfl | hreq
                    · rw [h] at himpl
                      injection himpl with himpl
                      exact Or.inl (by rw [himpl])
                    · exact Or.inr ⟨req, hreq, himpl⟩
                · intro a ha
                  injection ha with ha
                  omega
      | some a =>
          cases h : calculate_required_last_block_impl r with
          | none =>
              simp only [h]
              constructor
              · rintro ⟨h1, h2, h3⟩
                refine ⟨?_, h2, ?_⟩
                · rcases h1 with h1 | ⟨req, hreq, himpl⟩
                  · exact Or.inl h1
                  · exact Or.inr ⟨req, List.mem_cons_of_mem r hreq, himpl⟩
                · intro req hreq b hb
                  rcases List.mem_cons.mp hreq with rfl | hreq
                  · rw [h] at hb; cases hb
                  · exact h3 req hreq b hb
              · rintro ⟨h1, h2, h3⟩
                refine ⟨?_, h2, fun req hreq b hb => h3 req (List.mem_cons_of_mem r hreq) b hb⟩
                rcases h1 with h1 | ⟨req, hreq, himpl⟩
                · exact Or.inl h1
                · rcases List.mem_cons.mp hreq with rfl | hreq
                  · rw [h] at himpl; cases himpl
                  · exact Or.inr ⟨req, hreq, himpl⟩
          | some b =>
              simp only [h]
              constructor
              · rintro ⟨h1, h2, h3⟩
                have hmax : max a b ≤ m := h2 (max a b) rfl
                refine ⟨?_, ?_, ?_⟩
                · rcases h1 with h1 | ⟨req, hreq, himpl⟩
                  · injection h1 with h1
                    rcases Nat.le_total a b with hab | hab
                    · refine Or.inr ⟨r, List.mem_cons_self r reqs, ?_⟩
                      rw [h]
                      congr 1
                      omega
                    · refine Or.inl ?_
                      congr 1
                      omega
                  · exact Or.inr ⟨req, List.mem_cons_of_mem r hreq, himpl⟩
                · intro a' ha'
                  injection ha' with ha'
                  omega
                · intro req hreq c hc
                  rcases List.mem_cons.mp hreq with rfl | hreq
                  · rw [h] at hc
                    injection hc with hc
                    omega
                  · exact h3 req hreq c hc
              · rintro ⟨h1, h2, h3⟩
                have ham : a ≤ m := h2 a rfl
                have hbm : b ≤ m := h3 r (List.mem_cons_self r reqs) b h
                refine ⟨?_, ?_, fun req hreq c hc => h3 req (List.mem_cons_of_mem r hreq) c hc⟩
                · rcases h1 with h1 | ⟨req, hreq, himpl⟩
                  · injection h1 with h1
                    refine Or.inl ?_
                    congr 1
                    omega
                  · rcases List.mem_cons.mp hreq with rfl | hreq
                    · rw [h] at himpl
                      injection himpl with himpl
                      refine Or.inl ?_
                      congr 1
                      omega
                    · exact Or.inr ⟨req, hreq, himpl⟩
                · intro a' ha'
                  injection ha' with ha'
                  omega

instance (req : RpcRequest) : Decidable (wf_req req) := by
  cases req with
  | Single r => simp only [wf_req]; infer_instance
  | Batch reqs => simp only [wf_req]; infer_instance

/-- C6: `calculate_needed_reqs` equals the spec's cost function: 1 for a
single non-GetLogs request, `ceil((to − from + 1) / get_logs_range_limit)`
for a single GetLogs, and for a batch the sum over `batch_size_limit`-sized
chunks of `1 + Σ (member_cost − 1)`; a range of exactly
`get_logs_range_limit` blocks costs 1 and one more block costs 2, and the
result is at least 1 for every non-empty batch. -/
theorem c6_needed_reqs_eq_spec_cost :
    (∀ cfg req, 0 < cfg.get_logs_range_limit → 0 < cfg.batch_size_limit →
      wf_req req → req ≠ .Batch [] →
      calculate_needed_reqs cfg req = some (spec_request_cost cfg req)) ∧
    (∀ cfg reqs, 0 < cfg.batch_size_limit → reqs ≠ [] →
      1 ≤ spec_request_cost cfg (.Batch reqs)) ∧
    (∀ cfg f, 0 < cfg.get_logs_range_limit → cfg.get_logs_range_limit + 1 < u64size →
      calculate_needed_reqs cfg
        (.Single (.GetLogs ⟨f, f + cfg.get_logs_range_limit - 1⟩)) = some 1 ∧
      calculate_needed_reqs cfg
        (.Single (.GetLogs ⟨f, f + cfg.get_logs_range_limit⟩)) = some 2) := by
  refine ⟨?_, ?_, ?_⟩
  · intro cfg req hL hB hwf hne
    cases req with
    | Single r =>
        exact (impl_cost_eq cfg hL r hwf).1
    | Batch reqs =>
        have hreqs : reqs ≠ [] := fun he => hne (by rw [he])
        rw [batch_calc_eq cfg hL reqs hwf]
        rw [if_neg (by have := spec_batch_cost_pos cfg hB reqs hreqs; omega)]
  · intro cfg reqs hB hne
    exact spec_batch_cost_pos cfg hB reqs hne
  · intro cfg f hL hLu
    set L := cfg.get_logs_range_limit with hLdef
    have hwf1 : wf_req_impl (.GetLogs ⟨f, f + L - 1⟩) := by
      constructor
      · show f ≤ f + L - 1
        omega
      · show (f + L - 1) - f + 1 < u64size
        omega
    have hwf2 : wf_req_impl (.GetLogs ⟨f, f + L⟩) := by
      constructor
      · show f ≤ f + L
        omega
      · show (f + L) - f + 1 < u64size
        omega
    have h1 := impl_cost_eq cfg hL _ hwf1
    have h2 := impl_cost_eq cfg hL _ hwf2
    constructor
    · show calculate_needed_reqs_impl cfg (.GetLogs ⟨f, f + L - 1⟩) = some 1
      rw [h1.1]
      congr 1
      show ceil_div ((f + L - 1) - f + 1) L = 1
      have hr : (f + L - 1) - f + 1 = L := by omega
      rw [hr]
      unfold ceil_div
      rw [if_pos (Nat.mod_self L), Nat.div_self hL]
    · show calculate_needed_reqs_impl cfg (.GetLogs ⟨f, f + L⟩) = some 2
      rw [h2.1]
      congr 1
      show ceil_div ((f + L) - f + 1) L = 2
      have hr : (f + L) - f + 1 = L + 1 := by omega
      rw [hr, ← ceil_div_eq_add_pred_div (L + 1) L hL]
      have hs : L + 1 + L - 1 = L * 2 := by omega
      rw [hs, Nat.mul_div_cancel_left 2 hL]

/-- Witness for C6: the spec's GetLogs costing scenario,
`GetLogs{1,16}` with `get_logs_range_limit = 5` costs `ceil(16/5) = 4`. -/
theorem c6_needed_reqs_eq_spec_cost_witness :
    calculate_needed_reqs ⟨50, 1000, 5, 5⟩ (.Single (.GetLogs ⟨1, 16⟩)) = some 4 := by
  have h := c6_needed_reqs_eq_spec_cost.1 ⟨50, 1000, 5, 5⟩ (.Single (.GetLogs ⟨1, 16⟩))
    (by decide) (by decide) (by decide) (by decide)
  rw [h]
  decide

/-- C7: admitting a request against the rate limiter first resets the window
(counter to 0, start to now) iff the elapsed time reaches the window length,
then succeeds and adds the cost to the counter iff `count + cost < limit`
(strict), and otherwise fails with the limit error leaving the (possibly
reset) counter unchanged. -/
theorem c7_update_limit_semantics :
    ∀ cfg now st req needed,
      calculate_needed_reqs cfg req = some needed →
      ∃ r st', update_limit cfg now st req = some (r, st') ∧
        ((cfg.req_limit_window_ms ≤ now - st.last_limit_refresh →
            st'.last_limit_refresh = now ∧
            (r = .ok ↔ 0 + needed < cfg.req_limit) ∧
            st'.window_num_reqs =
              (if 0 + needed < cfg.req_limit then 0 + needed else 0)) ∧
         (¬ cfg.req_limit_window_ms ≤ now - st.last_limit_refresh →
            st'.last_limit_refresh = st.last_limit_refresh ∧
            (r = .ok ↔ st.window_num_reqs + needed < cfg.req_limit) ∧
            st'.window_num_reqs =
              (if st.window_num_reqs + needed < cfg.req_limit
               then st.window_num_reqs + needed else st.window_num_reqs))) := by
  intro cfg now st req needed h
  unfold update_limit
  rw [h]
  by_cases hw : cfg.req_limit_window_ms ≤ now - st.last_limit_refresh
  · by_cases hl : 0 + needed < cfg.req_limit
    · refine ⟨.ok, ⟨0 + needed, now⟩, ?_, ?_, ?_⟩
      · simp [hw, hl] <;> omega
      · intro _
        exact ⟨rfl, by simp [hl] <;> omega, by rw [if_pos hl]⟩
      · intro hc
        exact absurd hw hc
    · refine ⟨.limitExceeded, ⟨0, now⟩, ?_, ?_, ?_⟩
      · simp [hw, hl] <;> omega
      · intro _
        exact ⟨rfl, by simp [hl] <;> omega, by rw [if_neg hl]⟩
      · intro hc
        exact absurd hw hc
  · by_cases hl : st.window_num_reqs + needed < cfg.req_limit
    · refine ⟨.ok, ⟨st.window_num_reqs + needed, st.last_limit_refresh⟩, ?_, ?_, ?_⟩
      · simp [hw, hl] <;> omega
      · intro hc
        exact absurd hc hw
      · intro _
        exact ⟨rfl, by simp [hl] <;> omega, by rw [if_pos hl]⟩
    · refine ⟨.limitExceeded, st, ?_, ?_, ?_⟩
      · simp [hw, hl] <;> omega
      · intro hc
        exact absurd hc hw
      · intro _
        exact ⟨rfl, by simp [hl] <;> omega, by rw [if_neg hl]⟩

/-- Witness for C7: the spec's admit-success scenario, a batch of two
`GetLogs{1,7}` (cost 3) against an empty window with limit 50 succeeds and
leaves the window counter at 3. -/
theorem c7_update_limit_semantics_witness :
    ∃ r st', update_limit ⟨50, 1000, 5, 5⟩ 0 ⟨0, 0⟩
        (.Batch [.GetLogs ⟨1, 7⟩, .GetLogs ⟨1, 7⟩]) = some (r, st') ∧
      r = .ok ∧ st'.window_num_reqs = 3 := by
  have hneed : calculate_needed_reqs ⟨50, 1000, 5, 5⟩
      (.Batch [.GetLogs ⟨1, 7⟩, .GetLogs ⟨1, 7⟩]) = some 3 := by
    simp [calculate_needed_reqs, chunksOf, needed_reqs_for_batch,
      calculate_needed_reqs_impl, u64size]
  obtain ⟨r, st', heq, _, hnw⟩ :=
    c7_update_limit_semantics ⟨50, 1000, 5, 5⟩ 0 ⟨0, 0⟩
      (.Batch [.GetLogs ⟨1, 7⟩, .GetLogs ⟨1, 7⟩]) 3 hneed
  obtain ⟨hlast, hiff, hcount⟩ := hnw (by simp)
  exact ⟨r, st', heq, hiff.mpr (by decide), by rw [hcount]; decide⟩

/-- C8: the required tip is `to_block` for GetLogs, the block number for
GetBlockByNumber and GetTransactionReceipt, none for GetBlockNumber; a
batch's required tip is the maximum of its members' tips and is none
exactly when every member's tip is none. -/
theorem c8_required_tip :
    (∀ g, calculate_required_last_block (.Single (.GetLogs g)) = some g.to_block) ∧
    (calculate_required_last_block (.Single .GetBlockNumber) = none) ∧
    (∀ n, calculate_required_last_block (.Single (.GetBlockByNumber n)) = some n) ∧
    (∀ n h, calculate_required_last_block (.Single (.GetTransactionReceipt n h)) = some n) ∧
    (∀ reqs, calculate_required_last_block (.Batch reqs) = none ↔
      ∀ req ∈ reqs, calculate_required_last_block_impl req = none) ∧
    (∀ reqs m, calculate_required_last_block (.Batch reqs) = some m ↔
      ((∃ req ∈ reqs, calculate_required_last_block_impl req = some m) ∧
        ∀ req ∈ reqs, ∀ b, calculate_required_last_block_impl req = some b → b ≤ m)) := by
  refine ⟨fun g => rfl, rfl, fun n => rfl, fun n h => rfl, ?_, ?_⟩
  · intro reqs
    show required_tip_fold none reqs = none ↔ _
    rw [required_tip_fold_eq_none reqs none]
    simp
  · intro reqs m
    show required_tip_fold none reqs = some m ↔ _
    rw [required_tip_fold_eq_some reqs none m]
    simp

/-- Witness for C8: the spec's required-tip aggregation scenario,
`[GetBlockNumber, GetLogs{15,17}, GetBlockByNumber(199), GetBlockNumber]`
has required tip 199. -/
theorem c8_required_tip_witness :
    calculate_required_last_block (.Batch
      [.GetBlockNumber, .GetLogs ⟨15, 17⟩, .GetBlockByNumber 199, .GetBlockNumber]) =
      some 199 := by
  refine (c8_required_tip.2.2.2.2.2
    [.GetBlockNumber, .GetLogs ⟨15, 17⟩, .GetBlockByNumber 199, .GetBlockNumber] 199).mpr
    ⟨⟨.GetBlockByNumber 199, by simp, rfl⟩, ?_⟩
  intro req hreq b hb
  fin_cases hreq <;> simp [calculate_required_last_block_impl] at hb <;> omega

/-- C9: `calculate_needed_reqs` is not total on batches: the empty batch
makes the chunk sum 0 and the `NonZeroUsize` conversion panic (modelled by
`none`); the `result ≥ 1` guarantee holds for every non-empty well-formed
batch. -/
theorem c9_needed_reqs_empty_batch_panics :
    (∀ cfg, calculate_needed_reqs cfg (.Batch []) = none) ∧
    (∀ cfg reqs, reqs ≠ [] → 0 < cfg.get_logs_range_limit → 0 < cfg.batch_size_limit →
      (∀ req ∈ reqs, wf_req_impl req) →
      ∃ n, calculate_needed_reqs cfg (.Batch reqs) = some n ∧ 1 ≤ n) := by
  constructor
  · intro cfg
    simp [calculate_needed_reqs, chunksOf]
  · intro cfg reqs hne hL hB h
    refine ⟨spec_request_cost cfg (.Batch reqs), ?_,
      spec_batch_cost_pos cfg hB reqs hne⟩
    rw [batch_calc_eq cfg hL reqs h,
      if_neg (by have := spec_batch_cost_pos cfg hB reqs hne; omega)]

/-- Witness for C9: a non-empty batch of two `GetBlockNumber`s has a defined
cost of at least 1. -/
theorem c9_needed_reqs_empty_batch_panics_witness :
    ∃ n, calculate_needed_reqs ⟨50, 1000, 5, 5⟩
        (.Batch [.GetBlockNumber, .GetBlockNumber]) = some n ∧ 1 ≤ n :=
  c9_needed_reqs_empty_batch_panics.2 ⟨50, 1000, 5, 5⟩ [.GetBlockNumber, .GetBlockNumber]
    (by simp) (by decide) (by decide) (by decide)

/-! ## skar: query data model

`skar/src/types.rs` and `skar/src/state.rs` are not under `src/`; the types
below are modelled from the spec's data model (§3), with field names as
used by the code in `handler.rs` / `execution/mod.rs` / `server.rs`. -/

/-- Modelled from the spec: `LogSelection { address: [Addr20], topics: [[Topic32]; 4] }`
from `types.rs` (not under `src/`); each axis empty means wildcard.  The
four topic positions are a list, zipped against the four topic columns as
the code does. -/
structure LogSelection where
  address : List Bytes
  topics : List (List Bytes)
deriving DecidableEq

/-- Modelled from the spec: `TxSelection { from, to, sighash, status }` from
`types.rs` (not under `src/`).  `from`/`to` are Lean keywords, hence the
trailing underscore. -/
structure TransactionSelection where
  from_ : List Bytes
  to_ : List Bytes
  sighash : List Bytes
  status : Option Nat
deriving DecidableEq

/-- Modelled from the spec: `field_selection`, three sets of column names
(`BTreeSet<String>` in the source, modelled as lists). -/
structure FieldSelection where
  block : List String
  transaction : List String
  log : List String
deriving DecidableEq

/-- Modelled from the spec: `Query` from `types.rs` (not under `src/`);
`from_block` inclusive, `to_block` exclusive when present. -/
structure Query where
  from_block : Nat
  to_block : Option Nat
  logs : List LogSelection
  transactions : List TransactionSelection
  field_selection : FieldSelection
  include_all_blocks : Bool
deriving DecidableEq

/-! ## skar: Arrow columns

An Arrow array is a values buffer plus a validity bitmap: every slot has a
raw value even when it is null.  A cell is the raw value together with its
validity bit. -/

/-- One slot of an Arrow array: validity bit plus the raw buffer value. -/
structure Cell (α : Type) where
  valid : Bool
  val : α
deriving DecidableEq

/-- A column value: unsigned integer (`UInt64Array` / `UInt8Array`) or
binary (`BinaryArray`). -/
inductive CVal where
  | num (n : Nat)
  | bin (b : Bytes)
deriving DecidableEq

/-- An Arrow column. -/
abbrev Column := List (Cell CVal)

/-- `ArrowBatch`: the schema's field names zipped with the chunk's columns
(the source keeps `schema` and `chunk` side by side with equal arity). -/
abbrev ArrowBatch := List (String × Column)

/-- A `BooleanArray`: values bitmap plus validity bitmap, slotwise. -/
abbrev BoolArray := List (Cell Bool)

/-- Failures of the execution path: a failed column lookup / downcast (an
`anyhow` error surfaced as HTTP 500) versus a panicking `unwrap`. -/
inductive ExecError where
  | columnError (name : String)
  | unwrapPanic
deriving DecidableEq

/-- `Chunk::len()`: the length of the first column, 0 for an empty chunk. -/
def batchLen (batch : ArrowBatch) : Nat :=
  match batch with
  | [] => 0
  | (_, col) :: _ => col.length

/-- A batch is well-formed when its columns are aligned (Arrow's `Chunk`
invariant). -/
def wf_batch (batch : ArrowBatch) : Prop :=
  ∀ p ∈ batch, (p : String × Column).2.length = batchLen batch

/-- Downcast a column to `UInt64Array`/`UInt8Array` cells (`batch.column::<UInt64Array>`). -/
def cellsU64 : Column → Option (List (Cell Nat))
  | [] => some []
  | c :: rest =>
      match c.val with
      | .num n =>
          match cellsU64 rest with
          | some cells => some (⟨c.valid, n⟩ :: cells)
          | none => none
      | .bin _ => none

/-- Downcast a column to `BinaryArray` cells. -/
def cellsBin : Column → Option (List (Cell Bytes))
  | [] => some []
  | c :: rest =>
      match c.val with
      | .num _ => none
      | .bin b =>
          match cellsBin rest with
          | some cells => some (⟨c.valid, b⟩ :: cells)
          | none => none

/-- `batch.column::<UInt64Array>(name)` — `Err` when the name is missing or
the column has the wrong type. -/
def columnU64 (batch : ArrowBatch) (name : String) : Except ExecError (List (Cell Nat)) :=
  match batch.find? (fun p => p.1 == name) with
  | none => .error (.columnError name)
  | some p =>
      match cellsU64 p.2 with
      | none => .error (.columnError name)
      | some cells => .ok cells

/-- `batch.column::<BinaryArray<i32>>(name)`. -/
def columnBin (batch : ArrowBatch) (name : String) : Except ExecError (List (Cell Bytes)) :=
  match batch.find? (fun p => p.1 == name) with
  | none => .error (.columnError name)
  | some p =>
      match cellsBin p.2 with
      | none => .error (.columnError name)
      | some cells => .ok cells

/-- `compute::boolean::and`: values AND-ed, validities AND-ed
(`combine_validities`). -/
def andBoolArray (a b : BoolArray) : BoolArray :=
  List.zipWith (fun x y => ⟨x.valid && y.valid, x.val && y.val⟩) a b

/-- `compute::boolean::or`: values OR-ed, validities AND-ed. -/
def orBoolArray (a b : BoolArray) : BoolArray :=
  List.zipWith (fun x y => ⟨x.valid && y.valid, x.val || y.val⟩) a b

/-- `set_bool_array`: all-set values, no validity bitmap (all valid). -/
def set_bool_array (len : Nat) : BoolArray := List.replicate len ⟨true, true⟩

/-- `unset_bool_array`: all-unset values, all valid. -/
def unset_bool_array (len : Nat) : BoolArray := List.replicate len ⟨true, false⟩

/-- `in_set_binary`: membership of the raw value bytes (`values_iter`),
validity of the column preserved. -/
def in_set_binary (data : List (Cell Bytes)) (s : List Bytes) : BoolArray :=
  data.map (fun c => ⟨c.valid, decide (c.val ∈ s)⟩)

/-- `in_set_u64`: built from the validity-aware iterator (`iter()`), so a
null slot pushes a `false` value bit and a null validity bit. -/
def in_set_u64 (data : List (Cell Nat)) (s : Finset Nat) : BoolArray :=
  data.map (fun c => ⟨c.valid, c.valid && decide (c.val ∈ s)⟩)

/-- `in_set_u64_double`: pair membership of the raw values (`values_iter`),
validities combined. -/
def in_set_u64_double (left right : List (Cell Nat)) (s : Finset (Nat × Nat)) : BoolArray :=
  List.zipWith (fun a b => ⟨a.valid && b.valid, decide ((a.val, b.val) ∈ s)⟩) left right

/-- `compute::comparison::gt_eq_scalar` against a non-null scalar. -/
def gt_eq_scalar (col : List (Cell Nat)) (x : Nat) : BoolArray :=
  col.map (fun c => ⟨c.valid, decide (x ≤ c.val)⟩)

/-- `compute::comparison::lt_scalar` against a non-null scalar. -/
def lt_scalar (col : List (Cell Nat)) (x : Nat) : BoolArray :=
  col.map (fun c => ⟨c.valid, decide (c.val < x)⟩)

/-- `compute::comparison::eq_scalar` on the `status` `UInt8Array`. -/
def eq_scalar_u8 (col : List (Cell Nat)) (x : Nat) : BoolArray :=
  col.map (fun c => ⟨c.valid, decide (c.val = x)⟩)

/-- `build_range_filter`: `number ≥ from_block`, AND `number < to_block`
when present. -/
def build_range_filter (block_number : List (Cell Nat)) (q : Query) : BoolArray :=
  let range_filter := gt_eq_scalar block_number q.from_block
  match q.to_block with
  | some to_block => andBoolArray range_filter (lt_scalar block_number to_block)
  | none => range_filter

/-- A mask slot selects its row iff it is valid and set (the filter kernel
treats nulls as unselected). -/
def keepBit (c : Cell Bool) : Bool := c.valid && c.val

/-- Filter one column by a mask. -/
def filterColumn (mask : BoolArray) (col : List α) : List α :=
  (List.zipWith (fun m c => if keepBit m then some c else none) mask col).reduceOption

/-- `compute::filter::filter_chunk`: filter every column by the mask. -/
def filter_chunk (mask : BoolArray) (batch : ArrowBatch) : ArrowBatch :=
  batch.map (fun p => (p.1, filterColumn mask p.2))

/-! ## skar: query execution (`skar/src/query/execution/mod.rs`) -/

/-- `log_selection_to_filter`: start all-set; AND the address membership if
the address axis is non-empty; AND each non-empty topic axis zipped against
the four topic columns. -/
def log_selection_to_filter (address : List (Cell Bytes))
    (topics : List (List (Cell Bytes))) (selection : LogSelection) : BoolArray :=
  let filt := set_bool_array address.length
  let filt := if selection.address.isEmpty then filt
    else andBoolArray filt (in_set_binary address selection.address)
  (selection.topics.zip topics).foldl
    (fun filt tc => if tc.1.isEmpty then filt
      else andBoolArray filt (in_set_binary tc.2 tc.1)) filt

/-- `log_selections_to_filter`: fetch `address` and `topic0..topic3`, start
from the all-unset mask and OR each selection's mask in. -/
def log_selections_to_filter (batch : ArrowBatch) (selections : List LogSelection) :
    Except ExecError BoolArray := do
  let address ← columnBin batch ("address")
  let topic0 ← columnBin batch ("topic0")
  let topic1 ← columnBin batch ("topic1")
  let topic2 ← columnBin batch ("topic2")
  let topic3 ← columnBin batch ("topic3")
  let topics := [topic0, topic1, topic2, topic3]
  pure (selections.foldl
    (fun filt selection => orBoolArray filt (log_selection_to_filter address topics selection))
    (unset_bool_array address.length))

/-- `tx_selection_to_filter`: AND the non-empty axes `from`, `to`,
`sighash`, and the `status` equality when present. -/
def tx_selection_to_filter (from_ to_ sighash : List (Cell Bytes))
    (status : List (Cell Nat)) (selection : TransactionSelection) : BoolArray :=
  let filt := set_bool_array from_.length
  let filt := if selection.from_.isEmpty then filt
    else andBoolArray filt (in_set_binary from_ selection.from_)
  let filt := if selection.to_.isEmpty then filt
    else andBoolArray filt (in_set_binary to_ selection.to_)
  let filt := if selection.sighash.isEmpty then filt
    else andBoolArray filt (in_set_binary sighash selection.sighash)
  match selection.status with
  | some status_f => andBoolArray filt (eq_scalar_u8 status status_f)
  | none => filt

/-- `tx_selections_to_filter`. -/
def tx_selections_to_filter (batch : ArrowBatch) (selections : List TransactionSelection) :
    Except ExecError BoolArray := do
  let from_ ← columnBin batch ("from")
  let to_ ← columnBin batch ("to")
  let sighash ← columnBin batch ("sighash")
  let status ← columnU64 batch ("status")
  pure (selections.foldl
    (fun filt selection =>
      orBoolArray filt (tx_selection_to_filter from_ to_ sighash status selection))
    (unset_bool_array from_.length))

/-- `project_batch`: error on a field-selection name missing from the
schema, else keep exactly the selected columns in schema order. -/
def project_batch (batch : ArrowBatch) (field_selection : List String) :
    Except ExecError ArrowBatch :=
  match field_selection.find? (fun name => !batch.any (fun p => p.1 == name)) with
  | some name => .error (.columnError name)
  | none => .ok (batch.filter (fun p => field_selection.contains p.1))

/-- The row loop of `query_logs`: `b.unwrap()` / `t.unwrap()` on every
surviving row (panic on a null cell), inserting the block into `blk_set`
and the pair into `tx_set`. -/
def insert_log_sets : List (Cell Nat × Cell Nat) → Finset (Nat × Nat) → Finset Nat →
    Except ExecError (Finset (Nat × Nat) × Finset Nat)
  | [], tx_set, blk_set => .ok (tx_set, blk_set)
  | (b, t) :: rest, tx_set, blk_set =>
      if b.valid && t.valid then
        insert_log_sets rest (insert (b.val, t.val) tx_set) (insert b.val blk_set)
      else .error .unwrapPanic

/-- The row loop of `query_transactions`: `b.unwrap()` on every surviving
row, inserting into `blk_set`. -/
def insert_block_set : List (Cell Nat) → Finset Nat → Except ExecError (Finset Nat)
  | [], blk_set => .ok blk_set
  | b :: rest, blk_set =>
      if b.valid then insert_block_set rest (insert b.val blk_set)
      else .error .unwrapPanic

/-- The body of `query_logs` for one batch: range ∧ selections mask, filter
the chunk, read back `transaction_index` / `block_number`, unwrap every
surviving row into the sets, project, and emit when non-empty. -/
def query_logs_batch (q : Query) (batch : ArrowBatch)
    (tx_set : Finset (Nat × Nat)) (blk_set : Finset Nat) :
    Except ExecError (Option ArrowBatch × Finset (Nat × Nat) × Finset Nat) := do
  let block_number ← columnU64 batch ("block_number")
  let range_filter := build_range_filter block_number q
  let selections_filter ← log_selections_to_filter batch q.logs
  let filt := andBoolArray range_filter selections_filter
  let fbatch := filter_chunk filt batch
  let tx_index ← columnU64 fbatch ("transaction_index")
  let block_number2 ← columnU64 fbatch ("block_number")
  let sets ← insert_log_sets (block_number2.zip tx_index) tx_set blk_set
  let proj ← project_batch fbatch q.field_selection.log
  .ok (if 0 < batchLen proj then some proj else none, sets)

/-- `query_logs`: fold the batch loop over the loaded data, accumulating
emitted batches and the two sets. -/
def query_logs (q : Query) : List ArrowBatch → Finset (Nat × Nat) → Finset Nat →
    Except ExecError (List ArrowBatch × Finset (Nat × Nat) × Finset Nat)
  | [], tx_set, blk_set => .ok ([], tx_set, blk_set)
  | batch :: rest, tx_set, blk_set => do
      let (emitted, tx_set2, blk_set2) ← query_logs_batch q batch tx_set blk_set
      let (res, tx_set3, blk_set3) ← query_logs q rest tx_set2 blk_set2
      .ok ((match emitted with | some b => b :: res | none => res), tx_set3, blk_set3)

/-- The body of `query_transactions` for one batch: OR the
`transaction_set` membership test with the range ∧ selections mask, filter,
unwrap every surviving block number into `blk_set`, project, emit when
non-empty. -/
def query_transactions_batch (q : Query) (batch : ArrowBatch)
    (tx_set : Finset (Nat × Nat)) (blk_set : Finset Nat) :
    Except ExecError (Option ArrowBatch × Finset Nat) := do
  let block_number ← columnU64 batch ("block_number")
  let transaction_index ← columnU64 batch ("transaction_index")
  let range_filter := build_range_filter block_number q
  let selections_filter ← tx_selections_to_filter batch q.transactions
  let filt := andBoolArray range_filter selections_filter
  let in_set := in_set_u64_double block_number transaction_index tx_set
  let filt2 := orBoolArray in_set filt
  let fbatch := filter_chunk filt2 batch
  let block_number2 ← columnU64 fbatch ("block_number")
  let blk_set2 ← insert_block_set block_number2 blk_set
  let proj ← project_batch fbatch q.field_selection.transaction
  .ok (if 0 < batchLen proj then some proj else none, blk_set2)

/-- `query_transactions`. -/
def query_transactions (q : Query) : List ArrowBatch → Finset (Nat × Nat) → Finset Nat →
    Except ExecError (List ArrowBatch × Finset Nat)
  | [], _, blk_set => .ok ([], blk_set)
  | batch :: rest, tx_set, blk_set => do
      let (emitted, blk_set2) ← query_transactions_batch q batch tx_set blk_set
      let (res, blk_set3) ← query_transactions q rest tx_set blk_set2
      .ok ((match emitted with | some b => b :: res | none => res), blk_set3)

/-- `build_block_filter`: the range mask, AND-ed with `block_set`
membership unless `include_all_blocks`. -/
def build_block_filter (batch : ArrowBatch) (q : Query) (blk_set : Finset Nat) :
    Except ExecError BoolArray := do
  let block_number ← columnU64 batch ("number")
  let range_filter := build_range_filter block_number q
  if q.include_all_blocks then .ok range_filter
  else .ok (andBoolArray range_filter (in_set_u64 block_number blk_set))

/-- The body of `query_blocks` for one batch (note the source projects
first and filters the projected chunk). -/
def query_blocks_batch (q : Query) (batch : ArrowBatch) (blk_set : Finset Nat) :
    Except ExecError (Option ArrowBatch) := do
  let filt ← build_block_filter batch q blk_set
  let proj ← project_batch batch q.field_selection.block
  let proj2 := filter_chunk filt proj
  .ok (if 0 < batchLen proj2 then some proj2 else none)

/-- `query_blocks`. -/
def query_blocks (q : Query) : List ArrowBatch → Finset Nat → Except ExecError (List ArrowBatch)
  | [], _ => .ok []
  | batch :: rest, blk_set => do
      let emitted ← query_blocks_batch q batch blk_set
      let res ← query_blocks q rest blk_set
      .ok (match emitted with | some b => b :: res | none => res)

/-- Modelled from the spec: `QueryResultData` from `types.rs` (not under
`src/`): lists of batches per entity. -/
structure QueryResultData where
  logs : List ArrowBatch
  transactions : List ArrowBatch
  blocks : List ArrowBatch
deriving DecidableEq

/-- The batches a `DataProvider` makes available (`load_logs`,
`load_transactions`, `load_blocks` success values). -/
structure ProviderData where
  logs : List ArrowBatch
  transactions : List ArrowBatch
  blocks : List ArrowBatch

/-- `execute_query`: logs phase when `query.logs` is non-empty; transactions
phase when `query.transactions` is non-empty OR the logs phase populated
`transaction_set`; blocks phase when block fields are selected and
(`include_all_blocks` OR `block_set` non-empty). -/
def execute_query (provider : ProviderData) (q : Query) : Except ExecError QueryResultData := do
  let (logs, transaction_set, block_set) ←
    if q.logs ≠ [] then query_logs q provider.logs ∅ ∅
    else .ok ([], (∅ : Finset (Nat × Nat)), (∅ : Finset Nat))
  let (transactions, block_set2) ←
    if q.transactions ≠ [] ∨ transaction_set ≠ ∅ then
      query_transactions q provider.transactions transaction_set block_set
    else .ok ([], block_set)
  let blocks ←
    if q.field_selection.block ≠ [] ∧ (q.include_all_blocks = true ∨ block_set2 ≠ ∅) then
      query_blocks q provider.blocks block_set2
    else .ok []
  .ok ⟨logs, transactions, blocks⟩

/-! ## skar: query handler (`skar/src/query/handler.rs`) -/

/-- Modelled from the spec: the part of the global `State` read by the
archive-height functions — the in-memory buffer's exclusive upper bound
`in_mem.to_block` and the folder database's `next_block_num`
(`state.rs` / `db.rs` are not under `src/`; the db read is modelled on its
success path). -/
structure StateView where
  in_mem_to_block : Nat
  db_next_block_num : Nat
deriving DecidableEq

/-- `Handler::archive_height` (`query/handler.rs`): `in_mem.to_block - 1`
when positive, else `db.next_block_num - 1` when positive, else `None`. -/
def archive_height (s : StateView) : Option Nat :=
  if 0 < s.in_mem_to_block then some (s.in_mem_to_block - 1)
  else if 0 < s.db_next_block_num then some (s.db_next_block_num - 1)
  else none

/-- `get_archive_height` (`server.rs`): `None` when both are zero, else
`max(db.next_block_num, in_mem.to_block) - 1`. -/
def get_archive_height (s : StateView) : Option Nat :=
  if s.db_next_block_num = 0 ∧ s.in_mem_to_block = 0 then none
  else some (max s.db_next_block_num s.in_mem_to_block - 1)

/-- The spec's archive-height function (§4.7), for comparison:
`max(in_mem.to_block, db.next_block_num) − 1`, `None` when both are zero. -/
def spec_archive_height (s : StateView) : Option Nat :=
  if s.in_mem_to_block = 0 ∧ s.db_next_block_num = 0 then none
  else some (max s.in_mem_to_block s.db_next_block_num - 1)

/-- `prune_addrs` (the closure in `prune_query`): a non-empty address list
is filtered through the bloom test and dropped (`None`) when nothing
survives; an empty list stays the wildcard `Some([])`.  The bloom test
`filter.contains_hash(wyhash(addr, 0))` is abstracted as the predicate
`f` on the address bytes (sbbf/wyhash are external crates). -/
def prune_addrs (f : Bytes → Bool) (addrs : List Bytes) : Option (List Bytes) :=
  if !addrs.isEmpty then
    let out := addrs.filter f
    if out.isEmpty then none else some out
  else some []

/-- `prune_query`: drop a log selection whose address prunes to `None`;
drop a transaction selection when either its `from` or its `to` list prunes
to `None`; everything else is kept with the filtered lists. -/
def prune_query (q : Query) (f : Bytes → Bool) : Query :=
  { logs := q.logs.filterMap (fun selection =>
      match prune_addrs f selection.address with
      | none => none
      | some address => some { selection with address := address }),
    transactions := q.transactions.filterMap (fun selection =>
      match prune_addrs f selection.from_ with
      | none => none
      | some from_ =>
          match prune_addrs f selection.to_ with
          | none => none
          | some to_ => some { selection with from_ := from_, to_ := to_ }),
    from_block := q.from_block,
    to_block := q.to_block,
    field_selection := q.field_selection,
    include_all_blocks := q.include_all_blocks }

/-- Modelled from the spec: `QueryResult` from `types.rs` (not under
`src/`): the partial data plus the exclusive `next_block`. -/
structure QueryResult where
  data : QueryResultData
  next_block : Nat
deriving DecidableEq

/-- The bloom-prune short-circuit of `QueryResultIterator::next`
(`handler.rs`): when, after pruning against the folder's filter, no log and
no transaction selections remain and `include_all_blocks` is false, the
folder contributes `QueryResult { data: default, next_block: hi }` where
`hi` is the folder's exclusive upper bound; `none` means execution proceeds
to the folder's Parquet data. -/
def folder_prune_step (q : Query) (f : Bytes → Bool) (hi : Nat) : Option QueryResult :=
  let pruned_query := prune_query q f
  if pruned_query.logs.isEmpty ∧ pruned_query.transactions.isEmpty ∧
      pruned_query.include_all_blocks = false then
    some ⟨⟨[], [], []⟩, hi⟩
  else none

/-! ## skar: HTTP response assembly (`skar/src/server.rs`)

The JSON serialisation of record batches
(`record_batches_to_json_rows` + `serde_json`) and the per-batch hex
encoding (`hex_encode_batch`) are external collaborators; they are
parameters `enc` and `hexB` of the byte-building functions.  Bytes are
`Nat` values; 123/125/44 are the ASCII codes of the braces and the comma. -/

/-- `hex_encode_data`: hex-encode every batch of the three lists
(success path of the `anyhow` result). -/
def hex_encode_data (hexB : ArrowBatch → ArrowBatch) (data : QueryResultData) :
    QueryResultData :=
  ⟨data.logs.map hexB, data.transactions.map hexB, data.blocks.map hexB⟩

/-- String literal bytes. -/
def str_bytes (s : String) : List Nat := s.toList.map Char.toNat

/-- `extend_bytes_with_data`: returns whether it wrote any data.  An empty
`QueryResultData` writes nothing; otherwise one JSON object with the
non-empty sections, comma-separated. -/
def extend_bytes_with_data (hexB : ArrowBatch → ArrowBatch)
    (enc : List ArrowBatch → List Nat) (bytes : List Nat) (data : QueryResultData) :
    List Nat × Bool :=
  if data.logs.isEmpty ∧ data.transactions.isEmpty ∧ data.blocks.isEmpty then
    (bytes, false)
  else
    let data := hex_encode_data hexB data
    let bytes := bytes ++ [123]
    let st :=
      if !data.logs.isEmpty then
        (bytes ++ str_bytes ("\"logs\":") ++ enc data.logs, true)
      else (bytes, false)
    let st :=
      if !data.transactions.isEmpty then
        ((if st.2 then st.1 ++ [44] else st.1) ++
          str_bytes ("\"transactions\":") ++ enc data.transactions, true)
      else st
    let bytes :=
      if !data.blocks.isEmpty then
        (if st.2 then st.1 ++ [44] else st.1) ++
          str_bytes ("\"blocks\":") ++ enc data.blocks
      else st.1
    (bytes ++ [125], true)

/-- The byte-building part of `run_query`'s receive loop: before each
received partial, push a comma when the previous `extend_bytes_with_data`
wrote data; then append the partial.  (Size/time limit breaks and the error
path do not change the bytes already built and are not modelled.) -/
def response_data_loop (hexB : ArrowBatch → ArrowBatch)
    (enc : List ArrowBatch → List Nat) :
    List QueryResultData → List Nat → Bool → List Nat × Bool
  | [], bytes, put_comma => (bytes, put_comma)
  | data :: rest, bytes, put_comma =>
      let bytes := if put_comma then bytes ++ [44] else bytes
      let st := extend_bytes_with_data hexB enc bytes data
      response_data_loop hexB enc rest st.1 st.2

/-- Whether a partial is empty (contributes no `data` element). -/
def qrd_is_empty (data : QueryResultData) : Bool :=
  data.logs.isEmpty && data.transactions.isEmpty && data.blocks.isEmpty

/-! ## Claim C1: archive height -/

/-- C1 counterexample: at `in_mem.to_block = 1`, `db.next_block_num = 5`,
`Handler::archive_height` returns `Some(0)` while the claimed
`max(in_mem.to_block, db.next_block_num) − 1` is `Some(4)`: the handler
never consults the db once the in-memory bound is positive. -/
theorem c1_archive_height_counterexample :
    archive_height ⟨1, 5⟩ = some 0 ∧ spec_archive_height ⟨1, 5⟩ = some 4 ∧
      archive_height ⟨1, 5⟩ ≠ spec_archive_height ⟨1, 5⟩ := by decide

/-- C1 (amended): `Handler::archive_height` returns `None` exactly when
both `in_mem.to_block` and `db.next_block_num` are zero, and equals
`max(in_mem.to_block, db.next_block_num) − 1` whenever
`db.next_block_num ≤ in_mem.to_block` or `in_mem.to_block = 0`; the
server's `get_archive_height` equals the max-form for every state. -/
theorem c1_archive_height_amended :
    ∀ s : StateView,
      (archive_height s = none ↔ s.in_mem_to_block = 0 ∧ s.db_next_block_num = 0) ∧
      (s.db_next_block_num ≤ s.in_mem_to_block ∨ s.in_mem_to_block = 0 →
        archive_height s = spec_archive_height s) ∧
      get_archive_height s = spec_archive_height s := by
  intro s
  refine ⟨?_, ?_, ?_⟩
  · unfold archive_height
    split_ifs with h1 h2 <;> simp <;> omega
  · intro hcase
    unfold archive_height spec_archive_height
    split_ifs <;> first
      | rfl
      | (exfalso; omega)
      | (congr 1; omega)
  · unfold get_archive_height spec_archive_height
    split_ifs <;> first
      | rfl
      | (exfalso; omega)
      | (congr 1; omega)

/-- Witness for C1 (amended): a state with the in-memory bound ahead of the
db, where the handler height agrees with the max-form. -/
theorem c1_archive_height_amended_witness :
    archive_height ⟨5, 3⟩ = spec_archive_height ⟨5, 3⟩ ∧ archive_height ⟨5, 3⟩ = some 4 :=
  ⟨(c1_archive_height_amended ⟨5, 3⟩).2.1 (Or.inl (by decide)), by decide⟩

/-! ## Claim C3: bloom pruning -/

theorem prune_addrs_eq (f : Bytes → Bool) (addrs : List Bytes) :
    prune_addrs f addrs =
      (if addrs.isEmpty || !(addrs.filter f).isEmpty
       then some (addrs.filter f) else none) := by
  unfold prune_addrs
  by_cases ha : addrs.isEmpty
  · have he : addrs = [] := by simpa using ha
    subst he
    simp
  · simp only [ha, Bool.not_false, if_true, Bool.false_or]
    by_cases hf : (addrs.filter f).isEmpty <;> simp [hf]

theorem filterMap_prune_logs (f : Bytes → Bool) (ls : List LogSelection) :
    ls.filterMap (fun selection =>
      match prune_addrs f selection.address with
      | none => none
      | some address => some { selection with address := address }) =
    (ls.filter (fun s => s.address.isEmpty || !(s.address.filter f).isEmpty)).map
      (fun s => { s with address := s.address.filter f }) := by
  induction ls with
  | nil => rfl
  | cons s ls ih =>
      rw [List.filterMap_cons, List.filter_cons, prune_addrs_eq]
      by_cases hc : s.address.isEmpty || !(s.address.filter f).isEmpty
      · simp only [hc, if_true, ih]
        rfl
      · simp only [hc, if_false, ih]
        rfl

theorem filterMap_prune_txs (f : Bytes → Bool) (ts : List TransactionSelection) :
    ts.filterMap (fun selection =>
      match prune_addrs f selection.from_ with
      | none => none
      | some from_ =>
          match prune_addrs f selection.to_ with
          | none => none
          | some to_ => some { selection with from_ := from_, to_ := to_ }) =
    (ts.filter (fun s =>
        (s.from_.isEmpty || !(s.from_.filter f).isEmpty) &&
        (s.to_.isEmpty || !(s.to_.filter f).isEmpty))).map
      (fun s => { s with from_ := s.from_.filter f, to_ := s.to_.filter f }) := by
  induction ts with
  | nil => rfl
  | cons s ts ih =>
      simp only [prune_addrs_eq] at ih ⊢
      rw [List.filterMap_cons, List.filter_cons]
      by_cases hc1 : s.from_.isEmpty || !(s.from_.filter f).isEmpty
      · by_cases hc2 : s.to_.isEmpty || !(s.to_.filter f).isEmpty
        · simp only [hc1, hc2, if_true, Bool.and_self, ih]
          rfl
        · simp only [hc1, hc2, if_true, if_false, Bool.and_false, ih]
          rfl
      · simp only [hc1, if_false, Bool.false_and, ih]
        rfl

theorem keep_cond_iff (f : Bytes → Bool) (l : List Bytes) :
    (l.isEmpty || !(l.filter f).isEmpty) = true ↔ (l = [] ∨ l.filter f ≠ []) := by
  by_cases h1 : l = []
  · subst h1
    simp
  · by_cases h2 : l.filter f = [] <;> simp [h1, h2]

theorem tx_keep_cond_iff (f : Bytes → Bool) (s : TransactionSelection) :
    ((s.from_.isEmpty || !(s.from_.filter f).isEmpty) &&
     (s.to_.isEmpty || !(s.to_.filter f).isEmpty)) = true ↔
      ((s.from_ = [] ∨ s.from_.filter f ≠ []) ∧ (s.to_ = [] ∨ s.to_.filter f ≠ [])) := by
  rw [Bool.and_eq_true, keep_cond_iff, keep_cond_iff]

/-- C3: pruning drops exactly the selections whose originally non-empty
address list is emptied by the bloom filter (transaction selections through
either their `from` or their `to` list), keeps originally-empty address
lists as wildcards (the kept selections carry the filtered lists), and the
folder short-circuits to an empty `QueryResult` with `next_block = hi`
exactly when every log and transaction selection was dropped and
`include_all_blocks` is false. -/
theorem c3_prune_query_characterisation :
    ∀ (q : Query) (f : Bytes → Bool),
      ((prune_query q f).logs =
        (q.logs.filter (fun s => s.address.isEmpty || !(s.address.filter f).isEmpty)).map
          (fun s => { s with address := s.address.filter f })) ∧
      ((prune_query q f).transactions =
        (q.transactions.filter (fun s =>
            (s.from_.isEmpty || !(s.from_.filter f).isEmpty) &&
            (s.to_.isEmpty || !(s.to_.filter f).isEmpty))).map
          (fun s => { s with from_ := s.from_.filter f, to_ := s.to_.filter f })) ∧
      (∀ hi, folder_prune_step q f hi = some ⟨⟨[], [], []⟩, hi⟩ ↔
        (q.include_all_blocks = false ∧
          (∀ s ∈ q.logs, s.address ≠ [] ∧ s.address.filter f = []) ∧
          (∀ s ∈ q.transactions,
            (s.from_ ≠ [] ∧ s.from_.filter f = []) ∨
            (s.to_ ≠ [] ∧ s.to_.filter f = [])))) := by
  intro q f
  refine ⟨filterMap_prune_logs f q.logs, filterMap_prune_txs f q.transactions, ?_⟩
  intro hi
  have hstep : folder_prune_step q f hi =
      (if (prune_query q f).logs.isEmpty = true ∧
           (prune_query q f).transactions.isEmpty = true ∧
           (prune_query q f).include_all_blocks = false
       then some ⟨⟨[], [], []⟩, hi⟩ else none) := rfl
  have hlogs : (prune_query q f).logs.isEmpty = true ↔
      ∀ s ∈ q.logs, s.address ≠ [] ∧ s.address.filter f = [] := by
    rw [show (prune_query q f).logs =
        (q.logs.filter (fun s => s.address.isEmpty || !(s.address.filter f).isEmpty)).map
          (fun s => { s with address := s.address.filter f }) from
      filterMap_prune_logs f q.logs]
    rw [List.isEmpty_iff, List.map_eq_nil_iff, List.filter_eq_nil_iff]
    constructor
    · intro h s hs
      have hc := h s hs
      rw [keep_cond_iff] at hc
      push_neg at hc
      exact hc
    · intro h s hs
      rw [keep_cond_iff]
      push_neg
      exact h s hs
  have htxs : (prune_query q f).transactions.isEmpty = true ↔
      ∀ s ∈ q.transactions,
        (s.from_ ≠ [] ∧ s.from_.filter f = []) ∨ (s.to_ ≠ [] ∧ s.to_.filter f = []) := by
    rw [show (prune_query q f).transactions =
        (q.transactions.filter (fun s =>
            (s.from_.isEmpty || !(s.from_.filter f).isEmpty) &&
            (s.to_.isEmpty || !(s.to_.filter f).isEmpty))).map
          (fun s => { s with from_ := s.from_.filter f, to_ := s.to_.filter f }) from
      filterMap_prune_txs f q.transactions]
    rw [List.isEmpty_iff, List.map_eq_nil_iff, List.filter_eq_nil_iff]
    constructor
    · intro h s hs
      have hc := h s hs
      rw [tx_keep_cond_iff, not_and_or] at hc
      rcases hc with hc | hc
      · left
        push_neg at hc
        exact hc
      · right
        push_neg at hc
        exact hc
    · intro h s hs
      rw [tx_keep_cond_iff, not_and_or]
      rcases h s hs with ⟨h1, h2⟩ | ⟨h1, h2⟩
      · left
        push_neg
        exact ⟨h1, h2⟩
      · right
        push_neg
        exact ⟨h1, h2⟩
  have hinc : (prune_query q f).include_all_blocks = q.include_all_blocks := rfl
  rw [hstep]
  constructor
  · intro h
    split_ifs at h with hcond
    exact ⟨hinc ▸ hcond.2.2, hlogs.mp hcond.1, htxs.mp hcond.2.1⟩
  · rintro ⟨h1, h2, h3⟩
    rw [if_pos ⟨hlogs.mpr h2, htxs.mpr h3, hinc ▸ h1⟩]

/-- Witness for C3: a query with one matched-away log selection, one
wildcard-free transaction selection, and `include_all_blocks = false`
short-circuits to the empty result at `hi = 200` (the spec's scenario 5
shape). -/
theorem c3_prune_query_characterisation_witness :
    folder_prune_step
      ⟨50, some 150, [⟨[[1, 2]], []⟩], [], ⟨[], [], []⟩, false⟩
      (fun _ => false) 200 = some ⟨⟨[], [], []⟩, 200⟩ :=
  ((c3_prune_query_characterisation
      ⟨50, some 150, [⟨[[1, 2]], []⟩], [], ⟨[], [], []⟩, false⟩
      (fun _ => false)).2.2 200).mpr
    ⟨rfl, by decide, by decide⟩

/-! ## Claim C2: empty partials in the response loop -/

/-- C2 (code bug, failing input): with any serializer, the response loop on
the stream `[non-empty partial, empty partial]` produces the bytes of the
stream `[non-empty partial]` followed by a stray comma — the comma is
pushed *before* `extend_bytes_with_data` reports that the partial was
empty, so a trailing empty partial leaves `{"data":[{...},` and the body is
not valid JSON.  The two byte strings therefore differ, refuting the claim
that empty partials contribute nothing to the bytes. -/
theorem c2_empty_partial_leaves_trailing_comma :
    ((response_data_loop id (fun _ => [91, 93])
        [⟨[[]], [], []⟩, ⟨[], [], []⟩] (str_bytes ("\x7b\"data\":[")) false).1 =
      (response_data_loop id (fun _ => [91, 93])
        [⟨[[]], [], []⟩] (str_bytes ("\x7b\"data\":[")) false).1 ++ [44]) ∧
    ((response_data_loop id (fun _ => [91, 93])
        [⟨[[]], [], []⟩, ⟨[], [], []⟩] (str_bytes ("\x7b\"data\":[")) false).1 ≠
      (response_data_loop id (fun _ => [91, 93])
        [⟨[[]], [], []⟩] (str_bytes ("\x7b\"data\":[")) false).1) := by
  constructor
  · rfl
  · decide

/-! ## Row-level semantics of the mask kernels (for C4, C5, C10) -/

/-- Default cell used with `List.getD` in row-level statements (never hit
in-bounds). -/
def cellD : Cell Bytes := ⟨false, []⟩

/-- Default `u64` cell. -/
def cellDN : Cell Nat := ⟨false, 0⟩

/-- Default boolean cell. -/
def cellDB : Cell Bool := ⟨false, false⟩

theorem length_andBoolArray (a b : BoolArray) :
    (andBoolArray a b).length = min a.length b.length := List.length_zipWith _ a b

theorem length_orBoolArray (a b : BoolArray) :
    (orBoolArray a b).length = min a.length b.length := List.length_zipWith _ a b

theorem length_in_set_binary (d : List (Cell Bytes)) (s : List Bytes) :
    (in_set_binary d s).length = d.length := List.length_map d _

theorem length_in_set_u64_double (l r : List (Cell Nat)) (s : Finset (Nat × Nat)) :
    (in_set_u64_double l r s).length = min l.length r.length := List.length_zipWith _ l r

theorem length_gt_eq_scalar (col : List (Cell Nat)) (x : Nat) :
    (gt_eq_scalar col x).length = col.length := List.length_map col _

theorem length_lt_scalar (col : List (Cell Nat)) (x : Nat) :
    (lt_scalar col x).length = col.length := List.length_map col _

theorem length_eq_scalar_u8 (col : List (Cell Nat)) (x : Nat) :
    (eq_scalar_u8 col x).length = col.length := List.length_map col _

theorem length_set_bool_array (n : Nat) : (set_bool_array n).length = n :=
  List.length_replicate n _

theorem length_unset_bool_array (n : Nat) : (unset_bool_array n).length = n :=
  List.length_replicate n _

theorem length_build_range_filter (col : List (Cell Nat)) (q : Query) :
    (build_range_filter col q).length = col.length := by
  unfold build_range_filter
  cases q.to_block with
  | none => exact length_gt_eq_scalar col q.from_block
  | some tb =>
      rw [length_andBoolArray, length_gt_eq_scalar, length_lt_scalar]
      omega

theorem getD_andBoolArray (a b : BoolArray) (r : Nat) (ha : r < a.length) (hb : r < b.length) :
    (andBoolArray a b).getD r cellDB =
      ⟨(a.getD r cellDB).valid && (b.getD r cellDB).valid,
       (a.getD r cellDB).val && (b.getD r cellDB).val⟩ := by
  have hr : r < (andBoolArray a b).length := by
    rw [length_andBoolArray]
    omega
  rw [List.getD_eq_getElem _ _ hr, List.getD_eq_getElem _ _ ha, List.getD_eq_getElem _ _ hb]
  exact List.getElem_zipWith

theorem getD_orBoolArray (a b : BoolArray) (r : Nat) (ha : r < a.length) (hb : r < b.length) :
    (orBoolArray a b).getD r cellDB =
      ⟨(a.getD r cellDB).valid && (b.getD r cellDB).valid,
       (a.getD r cellDB).val || (b.getD r cellDB).val⟩ := by
  have hr : r < (orBoolArray a b).length := by
    rw [length_orBoolArray]
    omega
  rw [List.getD_eq_getElem _ _ hr, List.getD_eq_getElem _ _ ha, List.getD_eq_getElem _ _ hb]
  exact List.getElem_zipWith

theorem getD_in_set_binary (d : List (Cell Bytes)) (s : List Bytes) (r : Nat)
    (hr : r < d.length) :
    (in_set_binary d s).getD r cellDB =
      ⟨(d.getD r cellD).valid, decide ((d.getD r cellD).val ∈ s)⟩ := by
  have hr2 : r < (in_set_binary d s).length := by
    rw [length_in_set_binary]
    omega
  rw [List.getD_eq_getElem _ _ hr2, List.getD_eq_getElem _ _ hr]
  exact List.getElem_map _

theorem getD_in_set_u64_double (l rt : List (Cell Nat)) (s : Finset (Nat × Nat)) (r : Nat)
    (hl : r < l.length) (hrt : r < rt.length) :
    (in_set_u64_double l rt s).getD r cellDB =
      ⟨(l.getD r cellDN).valid && (rt.getD r cellDN).valid,
       decide (((l.getD r cellDN).val, (rt.getD r cellDN).val) ∈ s)⟩ := by
  have hr2 : r < (in_set_u64_double l rt s).length := by
    rw [length_in_set_u64_double]
    omega
  rw [List.getD_eq_getElem _ _ hr2, List.getD_eq_getElem _ _ hl, List.getD_eq_getElem _ _ hrt]
  exact List.getElem_zipWith

theorem getD_gt_eq_scalar (col : List (Cell Nat)) (x : Nat) (r : Nat) (hr : r < col.length) :
    (gt_eq_scalar col x).getD r cellDB =
      ⟨(col.getD r cellDN).valid, decide (x ≤ (col.getD r cellDN).val)⟩ := by
  have hr2 : r < (gt_eq_scalar col x).length := by
    rw [length_gt_eq_scalar]
    omega
  rw [List.getD_eq_getElem _ _ hr2, List.getD_eq_getElem _ _ hr]
  exact List.getElem_map _

theorem getD_lt_scalar (col : List (Cell Nat)) (x : Nat) (r : Nat) (hr : r < col.length) :
    (lt_scalar col x).getD r cellDB =
      ⟨(col.getD r cellDN).valid, decide ((col.getD r cellDN).val < x)⟩ := by
  have hr2 : r < (lt_scalar col x).length := by
    rw [length_lt_scalar]
    omega
  rw [List.getD_eq_getElem _ _ hr2, List.getD_eq_getElem _ _ hr]
  exact List.getElem_map _

theorem getD_eq_scalar_u8 (col : List (Cell Nat)) (x : Nat) (r : Nat) (hr : r < col.length) :
    (eq_scalar_u8 col x).getD r cellDB =
      ⟨(col.getD r cellDN).valid, decide ((col.getD r cellDN).val = x)⟩ := by
  have hr2 : r < (eq_scalar_u8 col x).length := by
    rw [length_eq_scalar_u8]
    omega
  rw [List.getD_eq_getElem _ _ hr2, List.getD_eq_getElem _ _ hr]
  exact List.getElem_map _

theorem getD_set_bool_array (n r : Nat) (hr : r < n) :
    (set_bool_array n).getD r cellDB = ⟨true, true⟩ := by
  have hr2 : r < (set_bool_array n).length := by
    rw [length_set_bool_array]
    omega
  rw [List.getD_eq_getElem _ _ hr2]
  simp [set_bool_array]

theorem getD_unset_bool_array (n r : Nat) (hr : r < n) :
    (unset_bool_array n).getD r cellDB = ⟨true, false⟩ := by
  have hr2 : r < (unset_bool_array n).length := by
    rw [length_unset_bool_array]
    omega
  rw [List.getD_eq_getElem _ _ hr2]
  simp [unset_bool_array]

/-- Row-level meaning of the range filter's value bit. -/
theorem getD_build_range_filter (col : List (Cell Nat)) (q : Query) (r : Nat)
    (hr : r < col.length) :
    ((build_range_filter col q).getD r cellDB).val = true ↔
      (q.from_block ≤ (col.getD r cellDN).val ∧
        ∀ tb, q.to_block = some tb → (col.getD r cellDN).val < tb) := by
  unfold build_range_filter
  cases hq : q.to_block with
  | none =>
      rw [getD_gt_eq_scalar col q.from_block r hr]
      simp
  | some tb =>
      rw [getD_andBoolArray _ _ r (by rw [length_gt_eq_scalar]; omega)
          (by rw [length_lt_scalar]; omega),
        getD_gt_eq_scalar col q.from_block r hr, getD_lt_scalar col tb r hr]
      simp

/-- A log selection matches row `r` on raw values: every non-empty axis's
cell value at `r` belongs to the axis set (spec §4.4 / §3 invariants). -/
def log_selection_matches_at (address : List (Cell Bytes))
    (topics : List (List (Cell Bytes))) (selection : LogSelection) (r : Nat) : Prop :=
  (selection.address = [] ∨ (address.getD r cellD).val ∈ selection.address) ∧
  ∀ tc ∈ selection.topics.zip topics,
    (tc : List Bytes × List (Cell Bytes)).1 = [] ∨ (tc.2.getD r cellD).val ∈ tc.1

instance (address : List (Cell Bytes)) (topics : List (List (Cell Bytes)))
    (selection : LogSelection) (r : Nat) :
    Decidable (log_selection_matches_at address topics selection r) := by
  unfold log_selection_matches_at
  infer_instance

theorem topics_fold_spec (len : Nat) :
    ∀ (pairs : List (List Bytes × List (Cell Bytes))),
      (∀ tc ∈ pairs, (tc : List Bytes × List (Cell Bytes)).2.length = len) →
      ∀ f0 : BoolArray, f0.length = len →
        ((pairs.foldl (fun filt tc =>
            if tc.1.isEmpty then filt
            else andBoolArray filt (in_set_binary tc.2 tc.1)) f0).length = len ∧
        ∀ r, r < len →
          (((pairs.foldl (fun filt tc =>
              if tc.1.isEmpty then filt
              else andBoolArray filt (in_set_binary tc.2 tc.1)) f0).getD r cellDB).val = true ↔
            ((f0.getD r cellDB).val = true ∧
            ∀ tc ∈ pairs,
              (tc : List Bytes × List (Cell Bytes)).1 = [] ∨
              (tc.2.getD r cellD).val ∈ tc.1))) := by
  intro pairs
  induction pairs with
  | nil =>
      intro _ f0 hf0
      refine ⟨hf0, fun r hr => ?_⟩
      simp
  | cons tc pairs ih =>
      intro hmem f0 hf0
      simp only [List.foldl_cons]
      by_cases hemp : tc.1.isEmpty
      · rw [if_pos hemp]
        have he : tc.1 = [] := by simpa using hemp
        obtain ⟨hlen, hiff⟩ := ih (fun x hx => hmem x (List.mem_cons_of_mem tc hx)) f0 hf0
        refine ⟨hlen, fun r hr => ?_⟩
        rw [hiff r hr]
        constructor
        · rintro ⟨h1, h2⟩
          refine ⟨h1, fun x hx => ?_⟩
          rcases List.mem_cons.mp hx with rfl | hx
          · exact Or.inl he
          · exact h2 x hx
        · rintro ⟨h1, h2⟩
          exact ⟨h1, fun x hx => h2 x (List.mem_cons_of_mem tc hx)⟩
      · rw [if_neg hemp]
        have hne : tc.1 ≠ [] := by simpa using hemp
        have hlt : tc.2.length = len := hmem tc (List.mem_cons_self tc pairs)
        have hlen1 : (andBoolArray f0 (in_set_binary tc.2 tc.1)).length = len := by
          rw [length_andBoolArray, length_in_set_binary, hf0, hlt]
          omega
        obtain ⟨hlen, hiff⟩ := ih (fun x hx => hmem x (List.mem_cons_of_mem tc hx)) _ hlen1
        refine ⟨hlen, fun r hr => ?_⟩
        rw [hiff r hr,
          getD_andBoolArray f0 _ r (by omega) (by rw [length_in_set_binary]; omega),
          getD_in_set_binary tc.2 tc.1 r (by omega)]
        simp only [Bool.and_eq_true, decide_eq_true_eq]
        constructor
        · rintro ⟨⟨h1, h2⟩, h3⟩
          refine ⟨h1, fun x hx => ?_⟩
          rcases List.mem_cons.mp hx with rfl | hx
          · exact Or.inr h2
          · exact h3 x hx
        · rintro ⟨h1, h2⟩
          have hhead := h2 tc (List.mem_cons_self tc pairs)
          rcases hhead with he | hm
          · exact absurd he hne
          · exact ⟨⟨h1, hm⟩, fun x hx => h2 x (List.mem_cons_of_mem tc hx)⟩

theorem log_selection_to_filter_spec (address : List (Cell Bytes))
    (topics : List (List (Cell Bytes))) (selection : LogSelection)
    (hts : ∀ t ∈ topics, (t : List (Cell Bytes)).length = address.length) :
    (log_selection_to_filter address topics selection).length = address.length ∧
    ∀ r, r < address.length →
      (((log_selection_to_filter address topics selection).getD r cellDB).val = true ↔
        log_selection_matches_at address topics selection r) := by
  unfold log_selection_to_filter
  dsimp only
  have hpairs : ∀ tc ∈ selection.topics.zip topics,
      (tc : List Bytes × List (Cell Bytes)).2.length = address.length := by
    intro tc htc
    exact hts tc.2 (List.of_mem_zip htc).2
  by_cases hemp : selection.address.isEmpty
  · rw [if_pos hemp]
    have he : selection.address = [] := by simpa using hemp
    obtain ⟨hlen, hiff⟩ := topics_fold_spec address.length (selection.topics.zip topics)
      hpairs (set_bool_array address.length) (length_set_bool_array address.length)
    refine ⟨hlen, fun r hr => ?_⟩
    rw [hiff r hr, getD_set_bool_array address.length r hr]
    unfold log_selection_matches_at
    simp [he]
  · rw [if_neg hemp]
    have hne : selection.address ≠ [] := by simpa using hemp
    have hlen1 : (andBoolArray (set_bool_array address.length)
        (in_set_binary address selection.address)).length = address.length := by
      rw [length_andBoolArray, length_set_bool_array, length_in_set_binary]
      omega
    obtain ⟨hlen, hiff⟩ := topics_fold_spec address.length (selection.topics.zip topics)
      hpairs _ hlen1
    refine ⟨hlen, fun r hr => ?_⟩
    rw [hiff r hr,
      getD_andBoolArray _ _ r (by rw [length_set_bool_array]; omega)
        (by rw [length_in_set_binary]; omega),
      getD_set_bool_array address.length r hr,
      getD_in_set_binary address selection.address r hr]
    unfold log_selection_matches_at
    simp [hne]

theorem log_selections_fold_spec (address : List (Cell Bytes))
    (topics : List (List (Cell Bytes)))
    (hts : ∀ t ∈ topics, (t : List (Cell Bytes)).length = address.length) :
    ∀ (selections : List LogSelection) (f0 : BoolArray), f0.length = address.length →
      ((selections.foldl (fun filt selection =>
          orBoolArray filt (log_selection_to_filter address topics selection)) f0).length =
        address.length ∧
      ∀ r, r < address.length →
        (((selections.foldl (fun filt selection =>
            orBoolArray filt (log_selection_to_filter address topics selection)) f0).getD
              r cellDB).val = true ↔
          ((f0.getD r cellDB).val = true ∨
            ∃ selection ∈ selections, log_selection_matches_at address topics selection r))) := by
  intro selections
  induction selections with
  | nil =>
      intro f0 hf0
      refine ⟨hf0, fun r hr => ?_⟩
      simp
  | cons s selections ih =>
      intro f0 hf0
      simp only [List.foldl_cons]
      obtain ⟨hslen, hsiff⟩ := log_selection_to_filter_spec address topics s hts
      have hlen1 : (orBoolArray f0 (log_selection_to_filter address topics s)).length =
          address.length := by
        rw [length_orBoolArray, hf0, hslen]
        omega
      obtain ⟨hlen, hiff⟩ := ih _ hlen1
      refine ⟨hlen, fun r hr => ?_⟩
      rw [hiff r hr,
        getD_orBoolArray f0 _ r (by omega) (by omega),
        ]
      simp only [Bool.or_eq_true]
      rw [hsiff r hr]
      constructor
      · rintro (⟨h | h⟩ | ⟨x, hx, hm⟩)
        · exact Or.inl h
        · exact Or.inr ⟨s, List.mem_cons_self s selections, h⟩
        · exact Or.inr ⟨x, List.mem_cons_of_mem s hx, hm⟩
      · rintro (h | ⟨x, hx, hm⟩)
        · exact Or.inl (Or.inl h)
        · rcases List.mem_cons.mp hx with rfl | hx
          · exact Or.inl (Or.inr hm)
          · exact Or.inr ⟨x, hx, hm⟩

theorem except_bind_ok {ε α β : Type} (a : α) (f : α → Except ε β) :
    (Except.ok a >>= f : Except ε β) = f a := rfl

/-- C5: the boolean mask computed by `log_selections_to_filter` is set at
row `r` (its value bit is 1) iff some selection in the list matches `r`,
where matching requires every non-empty axis — the address and each of the
four topic positions — to contain the row's cell value; the empty selection
list yields the all-unset mask. -/
theorem c5_log_selections_mask :
    ∀ (batch : ArrowBatch) (selections : List LogSelection)
      (address t0 t1 t2 t3 : List (Cell Bytes)),
      columnBin batch ("address") = .ok address →
      columnBin batch ("topic0") = .ok t0 →
      columnBin batch ("topic1") = .ok t1 →
      columnBin batch ("topic2") = .ok t2 →
      columnBin batch ("topic3") = .ok t3 →
      t0.length = address.length → t1.length = address.length →
      t2.length = address.length → t3.length = address.length →
      ∃ mask, log_selections_to_filter batch selections = .ok mask ∧
        mask.length = address.length ∧
        (selections = [] → mask = unset_bool_array address.length) ∧
        ∀ r, r < address.length →
          ((mask.getD r cellDB).val = true ↔
            ∃ selection ∈ selections,
              log_selection_matches_at address [t0, t1, t2, t3] selection r) := by
  intro batch selections address t0 t1 t2 t3 ha h0 h1 h2 h3 hl0 hl1 hl2 hl3
  have hts : ∀ t ∈ [t0, t1, t2, t3], (t : List (Cell Bytes)).length = address.length := by
    intro t ht
    fin_cases ht <;> assumption
  obtain ⟨hlen, hiff⟩ := log_selections_fold_spec address [t0, t1, t2, t3] hts selections
    (unset_bool_array address.length) (length_unset_bool_array address.length)
  refine ⟨_, ?_, hlen, fun hsel => by subst hsel; rfl, fun r hr => ?_⟩
  · unfold log_selections_to_filter
    rw [ha, except_bind_ok, h0, except_bind_ok, h1, except_bind_ok, h2, except_bind_ok,
      h3, except_bind_ok]
    rfl
  · rw [hiff r hr, getD_unset_bool_array address.length r hr]
    simp

/-- Witness for C5: a one-row batch whose address is in the selection's
address set and whose topics are unconstrained; the mask's value bit at
row 0 is set. -/
theorem c5_log_selections_mask_witness :
    ∃ mask, log_selections_to_filter
        [(("address"), [⟨true, .bin [1]⟩]), (("topic0"), [⟨true, .bin []⟩]),
         (("topic1"), [⟨true, .bin []⟩]), (("topic2"), [⟨true, .bin []⟩]),
         (("topic3"), [⟨true, .bin []⟩])]
        [⟨[[1]], [[], [], [], []]⟩] = .ok mask ∧
      (mask.getD 0 cellDB).val = true := by
  obtain ⟨mask, heq, hlen, hemp, hiff⟩ := c5_log_selections_mask
    [(("address"), [⟨true, .bin [1]⟩]), (("topic0"), [⟨true, .bin []⟩]),
     (("topic1"), [⟨true, .bin []⟩]), (("topic2"), [⟨true, .bin []⟩]),
     (("topic3"), [⟨true, .bin []⟩])]
    [⟨[[1]], [[], [], [], []]⟩]
    [⟨true, [1]⟩] [⟨true, []⟩] [⟨true, []⟩] [⟨true, []⟩] [⟨true, []⟩]
    rfl rfl rfl rfl rfl rfl rfl rfl rfl
  refine ⟨mask, heq, (hiff 0 (by decide)).mpr ⟨⟨[[1]], [[], [], [], []]⟩, by decide, by decide⟩⟩

/-! ## Transaction mask semantics (for C4) -/

/-- A transaction selection matches row `r` on raw values: every non-empty
axis (`from`, `to`, `sighash`) contains the cell value and the `status`
equality holds when present. -/
def tx_selection_matches_at (from_ to_ sighash : List (Cell Bytes))
    (status : List (Cell Nat)) (selection : TransactionSelection) (r : Nat) : Prop :=
  (selection.from_ = [] ∨ (from_.getD r cellD).val ∈ selection.from_) ∧
  (selection.to_ = [] ∨ (to_.getD r cellD).val ∈ selection.to_) ∧
  (selection.sighash = [] ∨ (sighash.getD r cellD).val ∈ selection.sighash) ∧
  (∀ st, selection.status = some st → (status.getD r cellDN).val = st)

instance (from_ to_ sighash : List (Cell Bytes)) (status : List (Cell Nat))
    (selection : TransactionSelection) (r : Nat) :
    Decidable (tx_selection_matches_at from_ to_ sighash status selection r) := by
  unfold tx_selection_matches_at
  cases selection.status <;> simp <;> infer_instance

theorem and_axis_spec (f : BoolArray) (col : List (Cell Bytes)) (s : List Bytes)
    (len : Nat) (hf : f.length = len) (hc : col.length = len) :
    ((if s.isEmpty then f else andBoolArray f (in_set_binary col s)).length = len) ∧
    ∀ r, r < len →
      ((((if s.isEmpty then f else andBoolArray f (in_set_binary col s)).getD r
          cellDB).val = true) ↔
        ((f.getD r cellDB).val = true ∧ (s = [] ∨ (col.getD r cellD).val ∈ s))) := by
  by_cases hemp : s.isEmpty
  · have he : s = [] := by simpa using hemp
    rw [if_pos hemp]
    exact ⟨hf, fun r hr => by simp [he]⟩
  · have hne : s ≠ [] := by simpa using hemp
    rw [if_neg hemp]
    refine ⟨by rw [length_andBoolArray, length_in_set_binary]; omega, fun r hr => ?_⟩
    rw [getD_andBoolArray f _ r (by omega) (by rw [length_in_set_binary]; omega),
      getD_in_set_binary col s r (by omega)]
    simp [hne]

theorem tx_selection_to_filter_spec (from_ to_ sighash : List (Cell Bytes))
    (status : List (Cell Nat)) (selection : TransactionSelection)
    (hto : to_.length = from_.length) (hsig : sighash.length = from_.length)
    (hst : status.length = from_.length) :
    (tx_selection_to_filter from_ to_ sighash status selection).length = from_.length ∧
    ∀ r, r < from_.length →
      (((tx_selection_to_filter from_ to_ sighash status selection).getD r cellDB).val =
          true ↔
        tx_selection_matches_at from_ to_ sighash status selection r) := by
  unfold tx_selection_to_filter
  dsimp only
  obtain ⟨hl1, hi1⟩ := and_axis_spec (set_bool_array from_.length) from_ selection.from_
    from_.length (length_set_bool_array from_.length) rfl
  obtain ⟨hl2, hi2⟩ := and_axis_spec _ to_ selection.to_ from_.length hl1 hto
  obtain ⟨hl3, hi3⟩ := and_axis_spec _ sighash selection.sighash from_.length hl2 hsig
  cases hstsel : selection.status with
  | none =>
      refine ⟨hl3, fun r hr => ?_⟩
      rw [hi3 r hr, hi2 r hr, hi1 r hr, getD_set_bool_array from_.length r hr]
      unfold tx_selection_matches_at
      rw [hstsel]
      simp
      tauto
  | some st =>
      refine ⟨by rw [length_andBoolArray, length_eq_scalar_u8]; omega, fun r hr => ?_⟩
      rw [getD_andBoolArray _ _ r (by omega) (by rw [length_eq_scalar_u8]; omega),
        getD_eq_scalar_u8 status st r (by omega)]
      simp only [Bool.and_eq_true, decide_eq_true_eq]
      rw [hi3 r hr, hi2 r hr, hi1 r hr, getD_set_bool_array from_.length r hr]
      unfold tx_selection_matches_at
      rw [hstsel]
      simp
      tauto

theorem tx_selections_fold_spec (from_ to_ sighash : List (Cell Bytes))
    (status : List (Cell Nat))
    (hto : to_.length = from_.length) (hsig : sighash.length = from_.length)
    (hst : status.length = from_.length) :
    ∀ (selections : List TransactionSelection) (f0 : BoolArray),
      f0.length = from_.length →
      ((selections.foldl (fun filt selection =>
          orBoolArray filt (tx_selection_to_filter from_ to_ sighash status selection))
          f0).length = from_.length ∧
      ∀ r, r < from_.length →
        (((selections.foldl (fun filt selection =>
            orBoolArray filt (tx_selection_to_filter from_ to_ sighash status selection))
            f0).getD r cellDB).val = true ↔
          ((f0.getD r cellDB).val = true ∨
            ∃ selection ∈ selections,
              tx_selection_matches_at from_ to_ sighash status selection r))) := by
  intro selections
  induction selections with
  | nil =>
      intro f0 hf0
      refine ⟨hf0, fun r hr => ?_⟩
      simp
  | cons s selections ih =>
      intro f0 hf0
      simp only [List.foldl_cons]
      obtain ⟨hslen, hsiff⟩ := tx_selection_to_filter_spec from_ to_ sighash status s
        hto hsig hst
      have hlen1 : (orBoolArray f0
          (tx_selection_to_filter from_ to_ sighash status s)).length = from_.length := by
        rw [length_orBoolArray, hf0, hslen]
        omega
      obtain ⟨hlen, hiff⟩ := ih _ hlen1
      refine ⟨hlen, fun r hr => ?_⟩
      rw [hiff r hr, getD_orBoolArray f0 _ r (by omega) (by omega)]
      simp only [Bool.or_eq_true]
      rw [hsiff r hr]
      constructor
      · rintro (⟨h | h⟩ | ⟨x, hx, hm⟩)
        · exact Or.inl h
        · exact Or.inr ⟨s, List.mem_cons_self s selections, h⟩
        · exact Or.inr ⟨x, List.mem_cons_of_mem s hx, hm⟩
      · rintro (h | ⟨x, hx, hm⟩)
        · exact Or.inl (Or.inl h)
        · rcases List.mem_cons.mp hx with rfl | hx
          · exact Or.inl (Or.inr hm)
          · exact Or.inr ⟨x, hx, hm⟩

theorem tx_selections_to_filter_ok (batch : ArrowBatch)
    (selections : List TransactionSelection)
    (from_ to_ sighash : List (Cell Bytes)) (status : List (Cell Nat))
    (hf : columnBin batch ("from") = .ok from_)
    (ht : columnBin batch ("to") = .ok to_)
    (hs : columnBin batch ("sighash") = .ok sighash)
    (hu : columnU64 batch ("status") = .ok status) :
    tx_selections_to_filter batch selections =
      .ok (selections.foldl (fun filt selection =>
        orBoolArray filt (tx_selection_to_filter from_ to_ sighash status selection))
        (unset_bool_array from_.length)) := by
  unfold tx_selections_to_filter
  rw [hf, except_bind_ok, ht, except_bind_ok, hs, except_bind_ok, hu, except_bind_ok]
  rfl

/-! ## Filtering and set-insertion lemmas (for C4, C10) -/

theorem cellsU64_length (col : Column) :
    ∀ cells, cellsU64 col = some cells → cells.length = col.length := by
  induction col with
  | nil =>
      intro cells h
      simp [cellsU64] at h
      subst h
      rfl
  | cons c rest ih =>
      intro cells h
      unfold cellsU64 at h
      cases hv : c.val with
      | num n =>
          rw [hv] at h
          cases hrest : cellsU64 rest with
          | none => rw [hrest] at h; cases h
          | some cs =>
              rw [hrest] at h
              injection h with h
              rw [← h]
              simp [ih cs hrest]
      | bin b => rw [hv] at h; cases h

theorem columnU64_mem (batch : ArrowBatch) (name : String) (cells : List (Cell Nat))
    (h : columnU64 batch name = .ok cells) :
    ∃ col, (name, col) ∈ batch ∧ cellsU64 col = some cells := by
  unfold columnU64 at h
  cases hf : batch.find? (fun p => p.1 == name) with
  | none => rw [hf] at h; cases h
  | some pr =>
      rw [hf] at h
      dsimp only at h
      cases hc : cellsU64 pr.2 with
      | none => rw [hc] at h; cases h
      | some cs =>
          rw [hc] at h
          injection h with h
          subst h
          have hmem := List.mem_of_find?_eq_some hf
          have hname : pr.1 = name := by
            have := List.find?_some hf
            simpa using this
          exact ⟨pr.2, by rw [← hname]; exact hmem, hc⟩

theorem columnU64_length_of_wf (batch : ArrowBatch) (name : String) (cells : List (Cell Nat))
    (h : columnU64 batch name = .ok cells) (hwf : wf_batch batch) :
    cells.length = batchLen batch := by
  obtain ⟨col, hmem, hc⟩ := columnU64_mem batch name cells h
  rw [cellsU64_length col cells hc]
  exact hwf (name, col) hmem

theorem cellsU64_filterColumn (mask : BoolArray) :
    ∀ (col : Column) (cells : List (Cell Nat)), cellsU64 col = some cells →
      cellsU64 (filterColumn mask col) = some (filterColumn mask cells) := by
  induction mask with
  | nil =>
      intro col cells h
      simp [filterColumn, cellsU64]
  | cons m ms ih =>
      intro col cells h
      cases col with
      | nil =>
          simp [cellsU64] at h
          subst h
          simp [filterColumn, cellsU64]
      | cons c rest =>
          unfold cellsU64 at h
          cases hv : c.val with
          | num n =>
              rw [hv] at h
              cases hrest : cellsU64 rest with
              | none => rw [hrest] at h; cases h
              | some cs =>
                  rw [hrest] at h
                  injection h with h
                  subst h
                  have hfc : filterColumn (m :: ms) (c :: rest) =
                      (if keepBit m then [c] else []) ++ filterColumn ms rest := by
                    unfold filterColumn
                    rw [List.zipWith_cons_cons]
                    by_cases hk : keepBit m
                    · rw [if_pos hk, if_pos hk, List.reduceOption_cons_of_some]
                      rfl
                    · rw [if_neg hk, if_neg hk, List.reduceOption_cons_of_none]
                      rfl
                  have hfcells : filterColumn (m :: ms) (⟨c.valid, n⟩ :: cs) =
                      (if keepBit m then [⟨c.valid, n⟩] else []) ++ filterColumn ms cs := by
                    unfold filterColumn
                    rw [List.zipWith_cons_cons]
                    by_cases hk : keepBit m
                    · rw [if_pos hk, if_pos hk, List.reduceOption_cons_of_some]
                      rfl
                    · rw [if_neg hk, if_neg hk, List.reduceOption_cons_of_none]
                      rfl
                  rw [hfc, hfcells]
                  by_cases hk : keepBit m
                  · rw [if_pos hk, if_pos hk]
                    simp only [List.singleton_append]
                    unfold cellsU64
                    rw [hv, ih rest cs hrest]
                  · rw [if_neg hk, if_neg hk]
                    simp only [List.nil_append]
                    exact ih rest cs hrest
          | bin b => rw [hv] at h; cases h

theorem find?_filter_chunk (mask : BoolArray) (batch : ArrowBatch) (name : String) :
    (filter_chunk mask batch).find? (fun p => p.1 == name) =
      ((batch.find? (fun p => p.1 == name)).map (fun p => (p.1, filterColumn mask p.2))) := by
  unfold filter_chunk
  rw [List.find?_map]
  rfl

theorem columnU64_filter_chunk (mask : BoolArray) (batch : ArrowBatch) (name : String)
    (cells : List (Cell Nat)) (h : columnU64 batch name = .ok cells) :
    columnU64 (filter_chunk mask batch) name = .ok (filterColumn mask cells) := by
  unfold columnU64 at h ⊢
  rw [find?_filter_chunk]
  cases hf : batch.find? (fun p => p.1 == name) with
  | none => rw [hf] at h; cases h
  | some pr =>
      rw [hf] at h
      dsimp only at h ⊢
      cases hc : cellsU64 pr.2 with
      | none => rw [hc] at h; cases h
      | some cs =>
          rw [hc] at h
          injection h with h
          subst h
          rw [Option.map_some']
          dsimp only
          rw [cellsU64_filterColumn mask pr.2 cs hc]

theorem filterColumn_zip (mask : BoolArray) :
    ∀ (a : List (Cell Nat)) (b : List (Cell Nat)), a.length = b.length →
      (filterColumn mask a).zip (filterColumn mask b) = filterColumn mask (a.zip b) := by
  induction mask with
  | nil =>
      intro a b hab
      simp [filterColumn]
  | cons m ms ih =>
      intro a b hab
      cases a with
      | nil =>
          cases b with
          | nil => simp [filterColumn]
          | cons y ys => cases hab
      | cons x xs =>
          cases b with
          | cons y ys =>
              have hab2 : xs.length = ys.length := by
                simpa using hab
              unfold filterColumn
              rw [List.zipWith_cons_cons, List.zipWith_cons_cons, List.zip_cons_cons]
              rw [List.zipWith_cons_cons]
              by_cases hk : keepBit m
              · rw [if_pos hk, if_pos hk, if_pos hk, List.reduceOption_cons_of_some,
                  List.reduceOption_cons_of_some, List.reduceOption_cons_of_some,
                  List.zip_cons_cons]
                have := ih xs ys hab2
                unfold filterColumn at this
                rw [this]
              · rw [if_neg hk, if_neg hk, if_neg hk, List.reduceOption_cons_of_none,
                  List.reduceOption_cons_of_none, List.reduceOption_cons_of_none]
                have := ih xs ys hab2
                unfold filterColumn at this
                rw [this]
          | nil => cases hab

theorem mem_filterColumn (mask : BoolArray) :
    ∀ (l : List α) (x : α), x ∈ filterColumn mask l → x ∈ l := by
  induction mask with
  | nil =>
      intro l x hx
      simp [filterColumn] at hx
  | cons m ms ih =>
      intro l x hx
      cases l with
      | nil => simp [filterColumn] at hx
      | cons c rest =>
          unfold filterColumn at hx
          rw [List.zipWith_cons_cons] at hx
          by_cases hk : keepBit m
          · rw [if_pos hk, List.reduceOption_cons_of_some] at hx
            rcases List.mem_cons.mp hx with rfl | hx
            · exact List.mem_cons_self _ _
            · exact List.mem_cons_of_mem c (ih rest x hx)
          · rw [if_neg hk, List.reduceOption_cons_of_none] at hx
            exact List.mem_cons_of_mem c (ih rest x hx)

theorem insert_log_sets_ok (l : List (Cell Nat × Cell Nat)) :
    ∀ ts bs out, insert_log_sets l ts bs = .ok out →
      out.1 = ts ∪ (l.map (fun p => ((p : Cell Nat × Cell Nat).1.val, p.2.val))).toFinset ∧
      out.2 = bs ∪ (l.map (fun p => (p : Cell Nat × Cell Nat).1.val)).toFinset := by
  induction l with
  | nil =>
      intro ts bs out h
      unfold insert_log_sets at h
      injection h with h
      subst h
      simp
  | cons p rest ih =>
      intro ts bs out h
      obtain ⟨b, t⟩ := p
      unfold insert_log_sets at h
      by_cases hv : b.valid && t.valid
      · rw [if_pos hv] at h
        obtain ⟨h1, h2⟩ := ih _ _ _ h
        constructor
        · rw [h1]
          ext x
          simp only [Finset.mem_union, Finset.mem_insert, List.mem_toFinset, List.map_cons,
            List.mem_cons]
          tauto
        · rw [h2]
          ext x
          simp only [Finset.mem_union, Finset.mem_insert, List.mem_toFinset, List.map_cons,
            List.mem_cons]
          tauto
      · rw [if_neg hv] at h
        cases h

theorem insert_log_sets_total (l : List (Cell Nat × Cell Nat))
    (h : ∀ p ∈ l, ((p : Cell Nat × Cell Nat).1.valid = true ∧ p.2.valid = true)) :
    ∀ ts bs, ∃ out, insert_log_sets l ts bs = .ok out := by
  induction l with
  | nil =>
      intro ts bs
      exact ⟨(ts, bs), rfl⟩
  | cons p rest ih =>
      intro ts bs
      obtain ⟨b, t⟩ := p
      obtain ⟨hb, ht⟩ := h (b, t) (List.mem_cons_self _ _)
      unfold insert_log_sets
      rw [if_pos (by rw [hb, ht]; rfl)]
      exact ih (fun x hx => h x (List.mem_cons_of_mem _ hx)) _ _

theorem insert_block_set_ok (l : List (Cell Nat)) :
    ∀ bs out, insert_block_set l bs = .ok out →
      out = bs ∪ (l.map (fun c => (c : Cell Nat).val)).toFinset := by
  induction l with
  | nil =>
      intro bs out h
      unfold insert_block_set at h
      injection h with h
      subst h
      simp
  | cons b rest ih =>
      intro bs out h
      unfold insert_block_set at h
      by_cases hv : b.valid
      · rw [if_pos hv] at h
        rw [ih _ _ h]
        ext x
        simp only [Finset.mem_union, Finset.mem_insert, List.mem_toFinset, List.map_cons,
          List.mem_cons]
        tauto
      · rw [if_neg hv] at h
        cases h

theorem insert_block_set_total (l : List (Cell Nat))
    (h : ∀ c ∈ l, (c : Cell Nat).valid = true) :
    ∀ bs, ∃ out, insert_block_set l bs = .ok out := by
  induction l with
  | nil =>
      intro bs
      exact ⟨bs, rfl⟩
  | cons b rest ih =>
      intro bs
      unfold insert_block_set
      rw [if_pos (h b (List.mem_cons_self _ _))]
      exact ih (fun x hx => h x (List.mem_cons_of_mem _ hx)) _

/-- The raw value pairs of the rows a mask keeps (rows of the original
log batch surviving the range ∧ selections filter). -/
def surviving_pairs (block_number transaction_index : List (Cell Nat))
    (mask : BoolArray) : List (Nat × Nat) :=
  (filterColumn mask (block_number.zip transaction_index)).map
    (fun p => ((p : Cell Nat × Cell Nat).1.val, p.2.val))

/-- The raw block-number values of the rows a mask keeps. -/
def surviving_blocks (block_number : List (Cell Nat)) (mask : BoolArray) : List Nat :=
  (filterColumn mask block_number).map (fun c => (c : Cell Nat).val)

/-- The OR mask built by `query_transactions_batch`: `transaction_set`
membership OR-ed with the range ∧ selections mask. -/
def tx_filter_mask (q : Query) (block_number transaction_index : List (Cell Nat))
    (sf : BoolArray) (tx_set : Finset (Nat × Nat)) : BoolArray :=
  orBoolArray (in_set_u64_double block_number transaction_index tx_set)
    (andBoolArray (build_range_filter block_number q) sf)

instance (batch : ArrowBatch) : Decidable (wf_batch batch) := by
  unfold wf_batch
  infer_instance

theorem query_logs_batch_sets (q : Query) (batch : ArrowBatch)
    (ts : Finset (Nat × Nat)) (bs : Finset Nat)
    (out : Option ArrowBatch × Finset (Nat × Nat) × Finset Nat)
    (bn ti : List (Cell Nat)) (sf : BoolArray)
    (hbn : columnU64 batch ("block_number") = .ok bn)
    (hti : columnU64 batch ("transaction_index") = .ok ti)
    (hsf : log_selections_to_filter batch q.logs = .ok sf)
    (hwf : wf_batch batch)
    (hout : query_logs_batch q batch ts bs = .ok out) :
    out.2.1 = ts ∪
      (surviving_pairs bn ti (andBoolArray (build_range_filter bn q) sf)).toFinset ∧
    out.2.2 = bs ∪
      ((surviving_pairs bn ti (andBoolArray (build_range_filter bn q) sf)).map
        Prod.fst).toFinset := by
  have hlen : bn.length = ti.length := by
    rw [columnU64_length_of_wf batch _ bn hbn hwf, columnU64_length_of_wf batch _ ti hti hwf]
  unfold query_logs_batch at hout
  rw [hbn, except_bind_ok] at hout
  rw [hsf, except_bind_ok] at hout
  dsimp only at hout
  rw [columnU64_filter_chunk _ batch _ ti hti, except_bind_ok] at hout
  rw [columnU64_filter_chunk _ batch _ bn hbn, except_bind_ok] at hout
  rw [filterColumn_zip _ bn ti hlen] at hout
  cases hins : insert_log_sets
      (filterColumn (andBoolArray (build_range_filter bn q) sf) (bn.zip ti)) ts bs with
  | error e =>
      rw [hins] at hout
      cases hout
  | ok sets =>
      rw [hins, except_bind_ok] at hout
      cases hproj : project_batch
          (filter_chunk (andBoolArray (build_range_filter bn q) sf) batch)
          q.field_selection.log with
      | error e =>
          rw [hproj] at hout
          cases hout
      | ok proj =>
          rw [hproj, except_bind_ok] at hout
          injection hout with hout
          subst hout
          obtain ⟨h1, h2⟩ := insert_log_sets_ok _ ts bs sets hins
          constructor
          · exact h1
          · rw [h2]
            congr 1
            unfold surviving_pairs
            rw [List.map_map]
            rfl

theorem except_bind_error {ε α β : Type} (e : ε) (f : α → Except ε β) :
    (Except.error e >>= f : Except ε β) = .error e := rfl

theorem columnU64_error (batch : ArrowBatch) (name : String) (e : ExecError)
    (h : columnU64 batch name = .error e) : e = .columnError name := by
  unfold columnU64 at h
  cases hf : batch.find? (fun p => p.1 == name) with
  | none =>
      rw [hf] at h
      injection h with h
      exact h.symm
  | some pr =>
      rw [hf] at h
      dsimp only at h
      cases hc : cellsU64 pr.2 with
      | none =>
          rw [hc] at h
          injection h with h
          exact h.symm
      | some cs => rw [hc] at h; cases h

theorem columnBin_error (batch : ArrowBatch) (name : String) (e : ExecError)
    (h : columnBin batch name = .error e) : e = .columnError name := by
  unfold columnBin at h
  cases hf : batch.find? (fun p => p.1 == name) with
  | none =>
      rw [hf] at h
      injection h with h
      exact h.symm
  | some pr =>
      rw [hf] at h
      dsimp only at h
      cases hc : cellsBin pr.2 with
      | none =>
          rw [hc] at h
          injection h with h
          exact h.symm
      | some cs => rw [hc] at h; cases h

theorem log_selections_to_filter_error (batch : ArrowBatch) (selections : List LogSelection)
    (e : ExecError) (h : log_selections_to_filter batch selections = .error e) :
    ∃ name, e = ExecError.columnError name := by
  unfold log_selections_to_filter at h
  cases ha : columnBin batch ("address") with
  | error ea =>
      rw [ha, except_bind_error] at h
      injection h with h
      exact ⟨_, by rw [← h]; exact columnBin_error _ _ _ ha⟩
  | ok address =>
      rw [ha, except_bind_ok] at h
      cases h0 : columnBin batch ("topic0") with
      | error e0 =>
          rw [h0, except_bind_error] at h
          injection h with h
          exact ⟨_, by rw [← h]; exact columnBin_error _ _ _ h0⟩
      | ok t0 =>
          rw [h0, except_bind_ok] at h
          cases h1 : columnBin batch ("topic1") with
          | error e1 =>
              rw [h1, except_bind_error] at h
              injection h with h
              exact ⟨_, by rw [← h]; exact columnBin_error _ _ _ h1⟩
          | ok t1 =>
              rw [h1, except_bind_ok] at h
              cases h2 : columnBin batch ("topic2") with
              | error e2 =>
                  rw [h2, except_bind_error] at h
                  injection h with h
                  exact ⟨_, by rw [← h]; exact columnBin_error _ _ _ h2⟩
              | ok t2 =>
                  rw [h2, except_bind_ok] at h
                  cases h3 : columnBin batch ("topic3") with
                  | error e3 =>
                      rw [h3, except_bind_error] at h
                      injection h with h
                      exact ⟨_, by rw [← h]; exact columnBin_error _ _ _ h3⟩
                  | ok t3 =>
                      rw [h3, except_bind_ok] at h
                      cases h

theorem project_batch_error (batch : ArrowBatch) (fs : List String) (e : ExecError)
    (h : project_batch batch fs = .error e) : ∃ name, e = ExecError.columnError name := by
  unfold project_batch at h
  cases hf : fs.find? (fun name => !batch.any (fun p => p.1 == name)) with
  | none => rw [hf] at h; cases h
  | some name =>
      rw [hf] at h
      injection h with h
      exact ⟨name, h.symm⟩

theorem execute_query_tx_phase (d : ProviderData) (q : Query) (res : QueryResultData)
    (hres : execute_query d q = .ok res)
    (hlogs : q.logs ≠ []) (_htx : q.transactions = [])
    (lres : List ArrowBatch) (ts1 : Finset (Nat × Nat)) (bs1 : Finset Nat)
    (hql : query_logs q d.logs ∅ ∅ = .ok (lres, ts1, bs1))
    (hts : ts1 ≠ ∅) :
    ∃ tres bs2, query_transactions q d.transactions ts1 bs1 = .ok (tres, bs2) ∧
      res.transactions = tres := by
  unfold execute_query at hres
  rw [if_pos hlogs, hql, except_bind_ok] at hres
  dsimp only at hres
  rw [if_pos (Or.inr hts)] at hres
  cases hqt : query_transactions q d.transactions ts1 bs1 with
  | error e =>
      rw [hqt, except_bind_error] at hres
      cases hres
  | ok pr =>
      obtain ⟨tres, bs2⟩ := pr
      rw [hqt, except_bind_ok] at hres
      dsimp only at hres
      refine ⟨tres, bs2, rfl, ?_⟩
      by_cases hblk : q.field_selection.block ≠ [] ∧ (q.include_all_blocks = true ∨ bs2 ≠ ∅)
      · rw [if_pos hblk] at hres
        cases hqb : query_blocks q d.blocks bs2 with
        | error e =>
            rw [hqb, except_bind_error] at hres
            cases hres
        | ok blocks =>
            rw [hqb, except_bind_ok] at hres
            injection hres with hres
            rw [← hres]
      · rw [if_neg hblk, except_bind_ok] at hres
        injection hres with hres
        rw [← hres]

theorem query_transactions_batch_sets (q : Query) (batch : ArrowBatch)
    (ts : Finset (Nat × Nat)) (bs : Finset Nat) (out : Option ArrowBatch × Finset Nat)
    (bn ti : List (Cell Nat)) (sf : BoolArray)
    (hbn : columnU64 batch ("block_number") = .ok bn)
    (hti : columnU64 batch ("transaction_index") = .ok ti)
    (hsf : tx_selections_to_filter batch q.transactions = .ok sf)
    (hout : query_transactions_batch q batch ts bs = .ok out) :
    out.2 = bs ∪ (surviving_blocks bn (tx_filter_mask q bn ti sf ts)).toFinset := by
  unfold query_transactions_batch at hout
  rw [hbn, except_bind_ok, hti, except_bind_ok] at hout
  rw [hsf, except_bind_ok] at hout
  dsimp only at hout
  rw [columnU64_filter_chunk _ batch _ bn hbn, except_bind_ok] at hout
  cases hins : insert_block_set
      (filterColumn (orBoolArray (in_set_u64_double bn ti ts)
        (andBoolArray (build_range_filter bn q) sf)) bn) bs with
  | error e =>
      rw [hins, except_bind_error] at hout
      cases hout
  | ok bs2 =>
      rw [hins, except_bind_ok] at hout
      cases hproj : project_batch
          (filter_chunk (orBoolArray (in_set_u64_double bn ti ts)
            (andBoolArray (build_range_filter bn q) sf)) batch)
          q.field_selection.transaction with
      | error e =>
          rw [hproj, except_bind_error] at hout
          cases hout
      | ok proj =>
          rw [hproj, except_bind_ok] at hout
          injection hout with hout
          subst hout
          exact insert_block_set_ok _ bs bs2 hins

theorem tx_filter_mask_val (q : Query) (bn ti : List (Cell Nat))
    (from_ to_ sighash : List (Cell Bytes)) (status : List (Cell Nat))
    (ts : Finset (Nat × Nat))
    (hti : ti.length = bn.length) (hfrom : from_.length = bn.length)
    (hto : to_.length = from_.length) (hsig : sighash.length = from_.length)
    (hst : status.length = from_.length) :
    ∀ r, r < bn.length →
      (((tx_filter_mask q bn ti
          (q.transactions.foldl (fun filt selection =>
            orBoolArray filt (tx_selection_to_filter from_ to_ sighash status selection))
            (unset_bool_array from_.length)) ts).getD r cellDB).val = true ↔
        (((bn.getD r cellDN).val, (ti.getD r cellDN).val) ∈ ts ∨
          ((q.from_block ≤ (bn.getD r cellDN).val ∧
            ∀ tb, q.to_block = some tb → (bn.getD r cellDN).val < tb) ∧
          ∃ selection ∈ q.transactions,
            tx_selection_matches_at from_ to_ sighash status selection r))) := by
  obtain ⟨hflen, hfiff⟩ := tx_selections_fold_spec from_ to_ sighash status hto hsig hst
    q.transactions (unset_bool_array from_.length) (length_unset_bool_array from_.length)
  intro r hr
  unfold tx_filter_mask
  rw [getD_orBoolArray _ _ r
      (by rw [length_in_set_u64_double]; omega)
      (by rw [length_andBoolArray, length_build_range_filter]; omega),
    getD_in_set_u64_double bn ti ts r hr (by omega),
    getD_andBoolArray _ _ r (by rw [length_build_range_filter]; omega) (by omega)]
  simp only [Bool.or_eq_true, Bool.and_eq_true, decide_eq_true_eq]
  rw [hfiff r (by omega), getD_unset_bool_array from_.length r (by omega)]
  have hrange := getD_build_range_filter bn q r hr
  constructor
  · rintro (h | ⟨h1, h2⟩)
    · exact Or.inl h
    · rcases h2 with hfalse | hsel
      · cases hfalse
      · exact Or.inr ⟨hrange.mp h1, hsel⟩
  · rintro (h | ⟨h1, h2⟩)
    · exact Or.inl h
    · exact Or.inr ⟨hrange.mpr h1, Or.inr h2⟩

instance exceptDecEq {e a : Type} [DecidableEq e] [DecidableEq a] : DecidableEq (Except e a)
  | .error u, .error v =>
      if h : u = v then isTrue (h ▸ rfl) else isFalse (fun hc => h (Except.error.inj hc))
  | .ok u, .ok v =>
      if h : u = v then isTrue (h ▸ rfl) else isFalse (fun hc => h (Except.ok.inj hc))
  | .error _, .ok _ => isFalse (fun hc => Except.noConfusion hc)
  | .ok _, .error _ => isFalse (fun hc => Except.noConfusion hc)

/-- C4: (1) a surviving log row's `(block_number, transaction_index)` raw
values are inserted into `transaction_set` and its `block_number` into
`block_set` — the sets grow by exactly the mask's surviving rows; (2) when
`query.transactions` is empty but the logs phase populated
`transaction_set`, `execute_query` still runs the transactions phase and
its output is the result's `transactions`; (3) the transactions phase
inserts exactly the rows surviving the OR of the `transaction_set`
membership test with the range ∧ selections mask; (4) that OR mask's value
bit at row `r` is set iff the row's pair is in `transaction_set` or the row
is in range and matches some transaction selection. -/
theorem c4_log_tx_propagation :
    (∀ (q : Query) (batch : ArrowBatch) (ts : Finset (Nat × Nat)) (bs : Finset Nat)
      (out : Option ArrowBatch × Finset (Nat × Nat) × Finset Nat)
      (bn ti : List (Cell Nat)) (sf : BoolArray),
      columnU64 batch ("block_number") = .ok bn →
      columnU64 batch ("transaction_index") = .ok ti →
      log_selections_to_filter batch q.logs = .ok sf →
      wf_batch batch →
      query_logs_batch q batch ts bs = .ok out →
      out.2.1 = ts ∪
        (surviving_pairs bn ti (andBoolArray (build_range_filter bn q) sf)).toFinset ∧
      out.2.2 = bs ∪
        ((surviving_pairs bn ti (andBoolArray (build_range_filter bn q) sf)).map
          Prod.fst).toFinset) ∧
    (∀ (d : ProviderData) (q : Query) (res : QueryResultData),
      execute_query d q = .ok res →
      q.logs ≠ [] → q.transactions = [] →
      ∀ (lres : List ArrowBatch) (ts1 : Finset (Nat × Nat)) (bs1 : Finset Nat),
      query_logs q d.logs ∅ ∅ = .ok (lres, ts1, bs1) →
      ts1 ≠ ∅ →
      ∃ tres bs2, query_transactions q d.transactions ts1 bs1 = .ok (tres, bs2) ∧
        res.transactions = tres) ∧
    (∀ (q : Query) (batch : ArrowBatch) (ts : Finset (Nat × Nat)) (bs : Finset Nat)
      (out : Option ArrowBatch × Finset Nat) (bn ti : List (Cell Nat)) (sf : BoolArray),
      columnU64 batch ("block_number") = .ok bn →
      columnU64 batch ("transaction_index") = .ok ti →
      tx_selections_to_filter batch q.transactions = .ok sf →
      query_transactions_batch q batch ts bs = .ok out →
      out.2 = bs ∪ (surviving_blocks bn (tx_filter_mask q bn ti sf ts)).toFinset) ∧
    (∀ (q : Query) (bn ti : List (Cell Nat)) (from_ to_ sighash : List (Cell Bytes))
      (status : List (Cell Nat)) (ts : Finset (Nat × Nat)),
      ti.length = bn.length → from_.length = bn.length →
      to_.length = from_.length → sighash.length = from_.length →
      status.length = from_.length →
      ∀ r, r < bn.length →
        (((tx_filter_mask q bn ti
            (q.transactions.foldl (fun filt selection =>
              orBoolArray filt (tx_selection_to_filter from_ to_ sighash status selection))
              (unset_bool_array from_.length)) ts).getD r cellDB).val = true ↔
          (((bn.getD r cellDN).val, (ti.getD r cellDN).val) ∈ ts ∨
            ((q.from_block ≤ (bn.getD r cellDN).val ∧
              ∀ tb, q.to_block = some tb → (bn.getD r cellDN).val < tb) ∧
            ∃ selection ∈ q.transactions,
              tx_selection_matches_at from_ to_ sighash status selection r)))) :=
  ⟨fun q batch ts bs out bn ti sf hbn hti hsf hwf hout =>
      query_logs_batch_sets q batch ts bs out bn ti sf hbn hti hsf hwf hout,
   fun d q res hres hlogs htx lres ts1 bs1 hql hts =>
      execute_query_tx_phase d q res hres hlogs htx lres ts1 bs1 hql hts,
   fun q batch ts bs out bn ti sf hbn hti hsf hout =>
      query_transactions_batch_sets q batch ts bs out bn ti sf hbn hti hsf hout,
   fun q bn ti from_ to_ sighash status ts hti hfrom hto hsig hst =>
      tx_filter_mask_val q bn ti from_ to_ sighash status ts hti hfrom hto hsig hst⟩

/-- Witness for C4: a one-row log batch (block 5, transaction index 7)
matched by a wildcard selection; the sets grow to exactly
`{(5, 7)}` / `{5}`. -/
theorem c4_log_tx_propagation_witness :
    ((some [(("block_number"), [⟨true, CVal.num 5⟩])], ({(5, 7)} : Finset (Nat × Nat)),
        ({5} : Finset Nat)) :
        Option ArrowBatch × Finset (Nat × Nat) × Finset Nat).2.1 =
      (∅ : Finset (Nat × Nat)) ∪
        (surviving_pairs [⟨true, 5⟩] [⟨true, 7⟩]
          (andBoolArray (build_range_filter [⟨true, 5⟩]
            ⟨0, none, [⟨[], [[], [], [], []]⟩], [], ⟨[], [], [("block_number")]⟩, false⟩)
            [⟨true, true⟩])).toFinset := by
  have h := c4_log_tx_propagation.1
    ⟨0, none, [⟨[], [[], [], [], []]⟩], [], ⟨[], [], [("block_number")]⟩, false⟩
    [(("block_number"), [⟨true, CVal.num 5⟩]), (("transaction_index"), [⟨true, CVal.num 7⟩]),
     (("address"), [⟨true, CVal.bin [1]⟩]), (("topic0"), [⟨true, CVal.bin []⟩]),
     (("topic1"), [⟨true, CVal.bin []⟩]), (("topic2"), [⟨true, CVal.bin []⟩]),
     (("topic3"), [⟨true, CVal.bin []⟩])]
    ∅ ∅
    (some [(("block_number"), [⟨true, CVal.num 5⟩])], ({(5, 7)} : Finset (Nat × Nat)),
      ({5} : Finset Nat))
    [⟨true, 5⟩] [⟨true, 7⟩] [⟨true, true⟩]
    rfl rfl rfl (by decide) (by decide)
  exact h.1

/-! ## Claim C10: null unwrap in the logs phase -/

/-- C10: `query_logs` unwraps `block_number` and `transaction_index` of
every surviving row.  (1) On a batch whose single row survives the filter
(valid block number 5 in range, wildcard selection) but has a null
`transaction_index`, the logs phase panics (`unwrapPanic`) — the filter
constrains only `block_number`, so a null `transaction_index` reaches the
unwrap.  (2) When the batch's `block_number` and `transaction_index`
columns are null-free, the logs phase never reaches the panic: any failure
is a column-lookup error. -/
theorem c10_query_logs_null_unwrap :
    (query_logs_batch
        ⟨0, none, [⟨[], [[], [], [], []]⟩], [], ⟨[], [], []⟩, false⟩
        [(("block_number"), [⟨true, CVal.num 5⟩]),
         (("transaction_index"), [⟨false, CVal.num 0⟩]),
         (("address"), [⟨true, CVal.bin []⟩]), (("topic0"), [⟨true, CVal.bin []⟩]),
         (("topic1"), [⟨true, CVal.bin []⟩]), (("topic2"), [⟨true, CVal.bin []⟩]),
         (("topic3"), [⟨true, CVal.bin []⟩])]
        ∅ ∅ = .error .unwrapPanic) ∧
    (∀ (q : Query) (batch : ArrowBatch) (ts : Finset (Nat × Nat)) (bs : Finset Nat)
      (bn ti : List (Cell Nat)),
      columnU64 batch ("block_number") = .ok bn →
      columnU64 batch ("transaction_index") = .ok ti →
      (∀ c ∈ bn, (c : Cell Nat).valid = true) →
      (∀ c ∈ ti, (c : Cell Nat).valid = true) →
      query_logs_batch q batch ts bs ≠ .error .unwrapPanic) := by
  constructor
  · rfl
  · intro q batch ts bs bn ti hbn hti hvb hvt heq
    unfold query_logs_batch at heq
    rw [hbn, except_bind_ok] at heq
    cases hsf : log_selections_to_filter batch q.logs with
    | error e =>
        rw [hsf, except_bind_error] at heq
        injection heq with heq
        obtain ⟨name, hname⟩ := log_selections_to_filter_error batch q.logs e hsf
        rw [hname] at heq
        cases heq
    | ok sf =>
        rw [hsf, except_bind_ok] at heq
        dsimp only at heq
        rw [columnU64_filter_chunk _ batch _ ti hti, except_bind_ok] at heq
        rw [columnU64_filter_chunk _ batch _ bn hbn, except_bind_ok] at heq
        obtain ⟨sets, hins⟩ := insert_log_sets_total
          ((filterColumn (andBoolArray (build_range_filter bn q) sf) bn).zip
            (filterColumn (andBoolArray (build_range_filter bn q) sf) ti))
          (by
            intro p hp
            obtain ⟨hp1, hp2⟩ := List.of_mem_zip hp
            exact ⟨hvb p.1 (mem_filterColumn _ bn p.1 hp1),
              hvt p.2 (mem_filterColumn _ ti p.2 hp2)⟩)
          ts bs
        rw [hins, except_bind_ok] at heq
        cases hproj : project_batch
            (filter_chunk (andBoolArray (build_range_filter bn q) sf) batch)
            q.field_selection.log with
        | error e =>
            rw [hproj, except_bind_error] at heq
            injection heq with heq
            obtain ⟨name, hname⟩ := project_batch_error _ _ e hproj
            rw [hname] at heq
            cases heq
        | ok proj =>
            rw [hproj, except_bind_ok] at heq
            cases heq

/-- Witness for C10: on the same one-row batch with a valid
`transaction_index`, the logs phase does not panic. -/
theorem c10_query_logs_null_unwrap_witness :
    query_logs_batch
        ⟨0, none, [⟨[], [[], [], [], []]⟩], [], ⟨[], [], []⟩, false⟩
        [(("block_number"), [⟨true, CVal.num 5⟩]),
         (("transaction_index"), [⟨true, CVal.num 7⟩]),
         (("address"), [⟨true, CVal.bin []⟩]), (("topic0"), [⟨true, CVal.bin []⟩]),
         (("topic1"), [⟨true, CVal.bin []⟩]), (("topic2"), [⟨true, CVal.bin []⟩]),
         (("topic3"), [⟨true, CVal.bin []⟩])]
        ∅ ∅ ≠ .error .unwrapPanic :=
  c10_query_logs_null_unwrap.2
    ⟨0, none, [⟨[], [[], [], [], []]⟩], [], ⟨[], [], []⟩, false⟩
    [(("block_number"), [⟨true, CVal.num 5⟩]),
     (("transaction_index"), [⟨true, CVal.num 7⟩]),
     (("address"), [⟨true, CVal.bin []⟩]), (("topic0"), [⟨true, CVal.bin []⟩]),
     (("topic1"), [⟨true, CVal.bin []⟩]), (("topic2"), [⟨true, CVal.bin []⟩]),
     (("topic3"), [⟨true, CVal.bin []⟩])]
    ∅ ∅ [⟨true, 5⟩] [⟨true, 7⟩] rfl rfl (by decide) (by decide)
